import Mathlib

/-!
Verification of the compiler front-end (lexer-fed recursive-descent syntax
analysis plus LLVM-IR code generation) of the C-Interpreter repository.

The development shallowly embeds the relevant parts of the source:

* `src/parse/parser.cpp` — the panic-mode `synchronize` routine and the
  operator-precedence expression tower (`parseExpr` down to
  `parsePrimaryExpr`, including the `std::stoi` call on numeric literals);
* `src/semantic/semantic.cpp` — the symbol table, the code generator's
  statement/declaration walk (scope and loop-context bookkeeping), array
  initialization (`flattenInitList` / `initializeArray`), pointer-parameter
  array addressing (`getArrayElementPtr` / `generateLValExpr`), and the
  short-circuit lowering of `&&` / `||` in `generateBinaryExpr`.

Machine integers that matter (the 32-bit overflow check of `std::stoi`) are
modelled with explicit bounds; C++ container state is modelled with lists;
fallible code returns `Option` / `Except`.
-/

/- ========================================================================= -/
/-  LLVM type model (opaque-pointer mode, as used by the source)            -/
/- ========================================================================= -/

/-- Model of the `llvm::Type` values the code generator builds:
`i1`, `i8`, `i32`, `void`, nested array types, the opaque pointer type and
function types. -/
inductive LLVMType where
  | i1
  | i8
  | i32
  | voidTy
  | arrayTy (elem : LLVMType) (size : Nat)
  | ptr
  | funcTy (params : List LLVMType) (ret : LLVMType)
deriving Repr

/-- `TypeSpec::Kind` of the AST: `INT`, `CHAR`, `VOID`. -/
inductive TypeSpecKind where
  | INT
  | CHAR
  | VOID
deriving DecidableEq, Repr

/-- `TypeSpec` — a base type keyword plus the `const` qualifier. -/
structure TypeSpec where
  kind : TypeSpecKind
  isConst : Bool
deriving DecidableEq, Repr

/-- `CodeGenerator::getLLVMType`: `INT → i32`, `CHAR → i8`, `VOID → void`
(the `default` branch of the `switch` is unreachable for the three-valued
enum and is therefore not modelled). -/
def getLLVMType (typeSpec : TypeSpec) : LLVMType :=
  match typeSpec.kind with
  | .INT => .i32
  | .CHAR => .i8
  | .VOID => .voidTy

/-- `llvm::Type::isPointerTy`. -/
def LLVMType.isPointerTy : LLVMType → Bool
  | .ptr => true
  | _ => false

/-- `llvm::Type::isVoidTy`. -/
def LLVMType.isVoidTy : LLVMType → Bool
  | .voidTy => true
  | _ => false

/- ========================================================================= -/
/-  AST (src/parse/ast.h), with its own list types so that all recursion    -/
/-  over it is structural                                                   -/
/- ========================================================================= -/

mutual
/-- Expression nodes of the AST.  `nullE` stands for a null
`std::unique_ptr<Expr>` child (the parser produces one when
`parsePrimaryExpr` fails). -/
inductive Expr where
  | number (value : Int)
  | charE (value : Nat)
  | stringE (value : String)
  | lval (name : String) (indices : ExprList)
  | binary (lhs : Expr) (op : String) (rhs : Expr)
  | unary (op : String) (rhs : Expr)
  | ternary (cond trueE falseE : Expr)
  | funcCall (name : String) (args : ExprList)
  | initList (items : ExprList)
  | nullE
deriving Repr
/-- A list of expressions (`std::vector<std::unique_ptr<Expr>>`). -/
inductive ExprList where
  | nil
  | cons (head : Expr) (tail : ExprList)
deriving Repr
end

/-- Length of an `ExprList`. -/
def ExprList.length : ExprList → Nat
  | .nil => 0
  | .cons _ t => t.length + 1

/-- Conversion of an `ExprList` to a plain `List Expr` (used to state
theorems with Mathlib's list vocabulary). -/
def ExprList.toList : ExprList → List Expr
  | .nil => []
  | .cons h t => h :: t.toList

/-- `VarDef` — one declarator: name, array dimensions, optional
initializer. -/
structure VarDef where
  name : String
  dims : ExprList
  init : Option Expr
deriving Repr

/-- `VarDecl` — one type keyword declaring several `VarDef`s (the only
concrete `Decl` subclass the code generator handles). -/
structure VarDecl where
  type : TypeSpec
  vars : List VarDef
deriving Repr

mutual
/-- Statement nodes of the AST. -/
inductive Stmt where
  | exprStmt (e : Option Expr)
  | assign (lhsName : String) (lhsIndices : ExprList) (rhs : Expr)
  | block (items : StmtItems)
  | ifS (cond : Expr) (thenS : Stmt) (elseS : OStmt)
  | whileS (cond : Expr) (body : Stmt)
  | forS (init : OItem) (cond : Option Expr) (step : OStmt) (body : Stmt)
  | ret (value : Option Expr)
  | brk
  | cont
/-- Optional statement (`std::unique_ptr<Stmt>` that may be null). -/
inductive OStmt where
  | noneS
  | someS (s : Stmt)
/-- One item of a block: a declaration or a statement (the `BlockItem`
dispatch of `generateBlockStmt`). -/
inductive BlockItem where
  | declItem (d : VarDecl)
  | stmtItem (s : Stmt)
/-- Optional block item (the `for`-init position). -/
inductive OItem where
  | noneI
  | someI (it : BlockItem)
/-- A list of block items. -/
inductive StmtItems where
  | nil
  | cons (head : BlockItem) (tail : StmtItems)
end

/-- `FuncParam` — parameter type, name, array flag, inner dimensions. -/
structure FuncParam where
  type : TypeSpec
  name : String
  isArray : Bool
  dims : ExprList
deriving Repr

/-- `FuncDef` — return type, name, parameters and body block. -/
structure FuncDef where
  returnType : TypeSpec
  name : String
  params : List FuncParam
  body : Stmt

/-- One top-level unit of a `CompUnit`: the `generate` loop dispatches on
`FuncDef` first, then `Decl`. -/
inductive CompUnitItem where
  | funcU (f : FuncDef)
  | declU (d : VarDecl)

/- ========================================================================= -/
/-  Symbol table (semantic.cpp lines 12-53)                                 -/
/- ========================================================================= -/

/-- `SymbolInfo` — one symbol-table entry. `storage` stands for the
`llvm::Value*` handle (`alloca`, global or function), identified by a
numeric id. -/
structure SymbolInfo where
  name : String
  type : LLVMType
  storage : Nat
  isConst : Bool
  isGlobal : Bool
  isFunction : Bool
  arrayDims : List Int
deriving Repr

/-- One scope frame: `std::map<std::string, SymbolInfo>` modelled as an
association list. -/
abbrev Scope := List (String × SymbolInfo)

/-- The scope stack.  The head of the list is the innermost scope
(`scopes.back()` of the C++ `std::vector`). -/
abbrev SymbolTable := List Scope

/-- The `SymbolTable` constructor: starts from an empty stack and pushes
the global scope. -/
def SymbolTable.initial : SymbolTable := [[]]

/-- `SymbolTable::enterScope` — push an empty frame. -/
def SymbolTable.enterScope (st : SymbolTable) : SymbolTable := [] :: st

/-- `SymbolTable::exitScope` — pop, but only while more than one frame
remains (the root scope is never popped). -/
def SymbolTable.exitScope (st : SymbolTable) : SymbolTable :=
  if st.length > 1 then st.tail else st

/-- Membership of a name in one frame (`currentScope.find(name) !=
currentScope.end()`). -/
def scopeContains (sc : Scope) (name : String) : Bool :=
  sc.any (fun p => p.1 == name)

/-- `SymbolTable::declare` — insert into the topmost frame, failing (and
leaving the table unchanged) when the name already exists there.  Returns
the success flag together with the new table. -/
def SymbolTable.declare (st : SymbolTable) (name : String) (info : SymbolInfo) :
    Bool × SymbolTable :=
  match st with
  | [] => (false, [])
  | top :: rest =>
    if scopeContains top name then (false, top :: rest)
    else (true, ((name, info) :: top) :: rest)

/-- `SymbolTable::lookup` — search the frames innermost-outward. -/
def SymbolTable.lookup (st : SymbolTable) (name : String) : Option SymbolInfo :=
  match st with
  | [] => none
  | top :: rest =>
    match top.find? (fun p => p.1 == name) with
    | some p => some p.2
    | none => SymbolTable.lookup rest name

/-- The scope operations the code generator performs on the shared table. -/
inductive ScopeOp where
  | enter
  | exit

/-- Apply one scope operation. -/
def applyScopeOp (st : SymbolTable) : ScopeOp → SymbolTable
  | .enter => st.enterScope
  | .exit => st.exitScope

/-- Apply a sequence of scope operations left to right. -/
def runScopeOps (st : SymbolTable) : List ScopeOp → SymbolTable
  | [] => st
  | op :: rest => runScopeOps (applyScopeOp st op) rest

/- ========================================================================= -/
/-  Code generator state and value model                                    -/
/- ========================================================================= -/

/-- Provenance of a generated `llvm::Value`: the expression it was lowered
from, or an incoming function argument. -/
inductive ValSrc where
  | fromExpr (e : Expr)
  | fromArg (name : String)
deriving Repr

/-- Model of an `llvm::Value*` produced by expression lowering: its IR
type, whether it is an `llvm::Constant` (IRBuilder folds operations on
constants), and its provenance. -/
structure Val where
  ty : LLVMType
  isConstV : Bool
  src : ValSrc
deriving Repr

/-- Instructions the claims observe: stack allocations and stores.  A
`storeGep` stores through a constant-index GEP on a stack slot (array
initialization); `storeDyn` stores through a runtime-computed element
pointer. -/
inductive EmitRec where
  | allocaE (slot : Nat)
  | storeSlot (slot : Nat) (v : Val)
  | storeGep (slot : Nat) (indices : List Nat) (v : Val)
  | storeDyn (v : Val)
deriving Repr

/-- A function registered in the IR module (`module->getFunction`). -/
structure FuncSig where
  name : String
  arity : Nat
  retType : LLVMType
deriving Repr

/-- The code generator's state: symbol table, loop-context stack (only its
size matters to the claims), whether the current insertion block already
has a terminator, the accumulated diagnostics, the emitted
allocations/stores, a fresh-storage counter, and the module's function
list. -/
structure GenState where
  symtab : SymbolTable
  loopDepth : Nat
  term : Bool
  errors : List String
  emits : List EmitRec
  nextSlot : Nat
  funcs : List FuncSig
deriving Repr

/-- Append diagnostics to the state (each `error(...)` call pushes onto the
error list). -/
def pushErrs (st : GenState) (es : List String) : GenState :=
  { st with errors := st.errors ++ es }

/-- The state of a fresh `CodeGenerator`. -/
def GenState.initial : GenState :=
  { symtab := SymbolTable.initial, loopDepth := 0, term := false,
    errors := [], emits := [], nextSlot := 0, funcs := [] }

/-- `CodeGenerator::convertToBool`: an `i1` is returned unchanged, an
integer is compared against zero, a pointer against null; anything else is
a semantic error.  Returns the converted value (if any) and the emitted
diagnostics. -/
def convertToBool (v : Val) : Option Val × List String :=
  match v.ty with
  | .i1 => (some v, [])
  | .i8 => (some { ty := .i1, isConstV := v.isConstV, src := v.src }, [])
  | .i32 => (some { ty := .i1, isConstV := v.isConstV, src := v.src }, [])
  | .ptr => (some { ty := .i1, isConstV := v.isConstV, src := v.src }, [])
  | _ => (none, ["Cannot convert value to boolean"])

mutual
/-- `CodeGenerator::generateExpr` — dispatch over the expression variants.
A `none` result models the C++ function returning `nullptr`; the second
component is the list of diagnostics emitted.  Expression lowering never
touches the scope stack or the loop stack, so the state is read-only
here. -/
def generateExpr (st : GenState) : Expr → Option Val × List String
  | .nullE => (none, [])
  | .number v =>
    (some { ty := .i32, isConstV := true, src := .fromExpr (.number v) }, [])
  | .charE v =>
    (some { ty := .i8, isConstV := true, src := .fromExpr (.charE v) }, [])
  | .stringE s =>
    (some { ty := .ptr, isConstV := true, src := .fromExpr (.stringE s) }, [])
  | .lval name indices =>
    match st.symtab.lookup name with
    | none => (none, ["Undeclared variable: " ++ name])
    | some sym =>
      match indices with
      | .cons i0 irest =>
        let (p, es) := getArrayElementPtr st name (.cons i0 irest)
        match p with
        | none => (none, es)
        | some _ =>
          (some { ty := .i32, isConstV := false,
                  src := .fromExpr (.lval name (.cons i0 irest)) }, es)
      | .nil =>
        if sym.isFunction then
          (none, ["Cannot load value from: " ++ name])
        else
          (some { ty := sym.type, isConstV := false,
                  src := .fromExpr (.lval name .nil) }, [])
  | .binary lhs op rhs =>
    if op == "&&" || op == "||" then
      let (l, esL) := generateExpr st lhs
      match l with
      | none => (none, esL)
      | some lv =>
        let (lb, esLB) := convertToBool lv
        match lb with
        | none => (none, esL ++ esLB)
        | some _ =>
          let (r, esR) := generateExpr st rhs
          match r with
          | none => (none, esL ++ esLB ++ esR)
          | some rv =>
            let (rb, esRB) := convertToBool rv
            match rb with
            | none => (none, esL ++ esLB ++ esR ++ esRB)
            | some _ =>
              (some { ty := .i1, isConstV := false,
                      src := .fromExpr (.binary lhs op rhs) },
               esL ++ esLB ++ esR ++ esRB)
    else
      let (l, esL) := generateExpr st lhs
      let (r, esR) := generateExpr st rhs
      match l, r with
      | some lv, some rv =>
        let cst := lv.isConstV && rv.isConstV
        let srcE := ValSrc.fromExpr (.binary lhs op rhs)
        if op == "+" || op == "-" || op == "*" || op == "/" || op == "%" then
          (some { ty := lv.ty, isConstV := cst, src := srcE }, esL ++ esR)
        else if op == "<" || op == ">" || op == "<=" || op == ">=" ||
                op == "==" || op == "!=" then
          (some { ty := .i1, isConstV := cst, src := srcE }, esL ++ esR)
        else if op == "&" || op == "|" || op == "^" || op == "<<" ||
                op == ">>" then
          (some { ty := lv.ty, isConstV := cst, src := srcE }, esL ++ esR)
        else
          (none, esL ++ esR ++ ["Unknown binary operator: " ++ op])
      | _, _ => (none, esL ++ esR)
  | .unary op rhs =>
    let (o, es) := generateExpr st rhs
    match o with
    | none => (none, es)
    | some ov =>
      if op == "-" then
        (some { ty := ov.ty, isConstV := ov.isConstV,
                src := .fromExpr (.unary op rhs) }, es)
      else if op == "!" then
        let (b, es2) := convertToBool ov
        match b with
        | none => (none, es ++ es2)
        | some bv =>
          (some { ty := .i1, isConstV := bv.isConstV,
                  src := .fromExpr (.unary op rhs) }, es ++ es2)
      else if op == "~" then
        (some { ty := ov.ty, isConstV := ov.isConstV,
                src := .fromExpr (.unary op rhs) }, es)
      else if op == "+" then
        (some ov, es)
      else if op == "++" || op == "--" then
        (none, es ++ ["Prefix increment/decrement not yet supported"])
      else
        (none, es ++ ["Unknown unary operator: " ++ op])
  | .ternary c t e =>
    let (cv, esC) := generateExpr st c
    match cv with
    | none => (none, esC)
    | some cvv =>
      let (cb, esCB) := convertToBool cvv
      match cb with
      | none => (none, esC ++ esCB)
      | some _ =>
        let (tv, esT) := generateExpr st t
        match tv with
        | none => (none, esC ++ esCB ++ esT)
        | some tvv =>
          let (ev, esE) := generateExpr st e
          match ev with
          | none => (none, esC ++ esCB ++ esT ++ esE)
          | some _ =>
            (some { ty := tvv.ty, isConstV := false,
                    src := .fromExpr (.ternary c t e) },
             esC ++ esCB ++ esT ++ esE)
  | .funcCall name args =>
    match st.funcs.find? (fun f => f.name == name) with
    | none => (none, ["Unknown function: " ++ name])
    | some f =>
      if f.arity != args.length then
        (none, ["Incorrect number of arguments for function: " ++ name])
      else
        let (argVals, es) := generateExprSeq st args
        match argVals with
        | none => (none, es)
        | some _ =>
          (some { ty := f.retType, isConstV := false,
                  src := .fromExpr (.funcCall name args) }, es)
  | .initList _ =>
    (none, ["InitList expression can only be used in variable initialization"])

/-- Sequential lowering of an expression list (function-call arguments and
subscript lists): stops at the first failing element, as the C++ loops
return `nullptr` immediately. -/
def generateExprSeq (st : GenState) : ExprList → Option (List Val) × List String
  | .nil => (some [], [])
  | .cons h t =>
    let (v, es) := generateExpr st h
    match v with
    | none => (none, es)
    | some vv =>
      let (vs, es2) := generateExprSeq st t
      match vs with
      | none => (none, es ++ es2)
      | some vss => (some (vv :: vss), es ++ es2)

/-- `CodeGenerator::getArrayElementPtr` — produce the element pointer of a
subscripted `LVal`.  For a pointer-typed symbol (decayed array parameter)
the pointer is first loaded and each subscript is applied by its own GEP;
note the source generates the first index once before the branch and, in
the several-indices branch, generates it a second time inside the loop.
For an aggregate symbol a single GEP with a leading zero index is used.
Only success/failure and diagnostics are tracked here; the GEP source
element types are modelled separately (they decide claim C2). -/
def getArrayElementPtr (st : GenState) (name : String) (indices : ExprList) :
    Option Val × List String :=
  match st.symtab.lookup name with
  | none => (none, ["Undeclared variable: " ++ name])
  | some sym =>
    let ptrVal : Val :=
      { ty := .ptr, isConstV := false, src := .fromExpr (.lval name indices) }
    if sym.type.isPointerTy then
      match indices with
      | .nil => (some ptrVal, [])
      | .cons i0 irest =>
        let (first, esF) := generateExpr st i0
        match first with
        | none => (none, esF)
        | some _ =>
          match irest with
          | .nil => (some ptrVal, esF)
          | .cons _ _ =>
            let (v0, es0) := generateExpr st i0
            match v0 with
            | none => (none, esF ++ es0)
            | some _ =>
              let (restVals, esR) := generateExprSeq st irest
              match restVals with
              | none => (none, esF ++ es0 ++ esR)
              | some _ => (some ptrVal, esF ++ es0 ++ esR)
    else
      match indices with
      | .nil => (some ptrVal, [])
      | .cons h t =>
        let (v0, es0) := generateExpr st h
        match v0 with
        | none => (none, es0)
        | some _ =>
          let (restVals, esR) := generateExprSeq st t
          match restVals with
          | none => (none, es0 ++ esR)
          | some _ => (some ptrVal, es0 ++ esR)
end

/- ========================================================================= -/
/-  Array initialization (semantic.cpp lines 674-770)                       -/
/- ========================================================================= -/

/-- `CodeGenerator::flattenInitList` — walk the (possibly nested)
initializer list depth-first; nested lists are flattened recursively, and
for every other item the generated value is appended when generation
succeeds (a failing item is skipped, its diagnostics kept). -/
def flattenInitList (st : GenState) : ExprList → List Val × List String
  | .nil => ([], [])
  | .cons h t =>
    let (hVals, hErrs) :=
      match h with
      | .initList inner => flattenInitList st inner
      | e =>
        match generateExpr st e with
        | (some v, es) => ([v], es)
        | (none, es) => ([], es)
    let (tVals, tErrs) := flattenInitList st t
    (hVals ++ tVals, hErrs ++ tErrs)

/-- The index-building loop of `initializeArray`: iterate the dimensions
from the last to the first, taking `remainder % dims[d]` as the index of
dimension `d` and continuing with `remainder / dims[d]`; each new index is
inserted right after the leading zero, i.e. prepended to the accumulator.
The first argument is the dimension list already reversed (the `d`
loop runs from `dims.size()-1` down to `0`). -/
def digitLoop : List Nat → Nat → List Nat → List Nat
  | [], _, acc => acc
  | d :: rest, remainder, acc =>
    digitLoop rest (remainder / d) ((remainder % d) :: acc)

/-- The complete constant GEP index vector built by `initializeArray` for
flat position `k`: a leading zero (the base index) followed by one index
per dimension. -/
def buildIndices (dims : List Nat) (k : Nat) : List Nat :=
  0 :: digitLoop dims.reverse k []

/-- The store loop of the init-list branch of `initializeArray`: store the
values in order while the running flat index stays below the total size
(`i < flatValues.size() && i < totalSize`). -/
def initStores (slot : Nat) (dims : List Nat) (total : Nat) :
    List Val → Nat → List EmitRec
  | [], _ => []
  | v :: vs, k =>
    if k < total then
      .storeGep slot (buildIndices dims k) v :: initStores slot dims total vs (k + 1)
    else []

/-- The scalar branch of `initializeArray`: store the single value at
every flat position `0 ≤ k < totalSize`. -/
def broadcastStores (slot : Nat) (dims : List Nat) (total : Nat) (v : Val) :
    List EmitRec :=
  (List.range total).map (fun k => .storeGep slot (buildIndices dims k) v)

/-- `CodeGenerator::initializeArray` — lower a local array initializer.
The dimensions arrive as the C++ `std::vector<int>`; all arithmetic in the
source runs on non-negative ints (flat positions and the dimension values
of well-formed declarations), so the loops are modelled on `Nat` via
`Int.toNat`.  Returns the emitted stores and the diagnostics. -/
def initializeArray (st : GenState) (slot : Nat) (initExpr : Expr)
    (dims : List Int) : List EmitRec × List String :=
  let dimsN := dims.map Int.toNat
  let total := dimsN.prod
  match initExpr with
  | .initList items =>
    let (flat, es) := flattenInitList st items
    (initStores slot dimsN total flat 0, es)
  | e =>
    match generateExpr st e with
    | (none, es) => ([], es)
    | (some v, es) => (broadcastStores slot dimsN total v, es)

/- ========================================================================= -/
/-  Variable declarations (semantic.cpp lines 1084-1285)                    -/
/- ========================================================================= -/

/-- The loop body of `CodeGenerator::getArrayType`, iterating over the
already-reversed dimension list (the C++ walks `rbegin()..rend()`): a
positive literal wraps the type in an `ArrayType` of that size, a
non-positive literal is diagnosed and replaced by size 1, and a
non-literal dimension is diagnosed and replaced by size 1. -/
def getArrayTypeLoop : List Expr → LLVMType × List String → LLVMType × List String
  | [], acc => acc
  | e :: rest, (ty, es) =>
    match e with
    | .number n =>
      if n ≤ 0 then
        getArrayTypeLoop rest (.arrayTy ty 1, es ++ ["Array size must be positive"])
      else
        getArrayTypeLoop rest (.arrayTy ty n.toNat, es)
    | _ =>
      getArrayTypeLoop rest
        (.arrayTy ty 1, es ++ ["Array size must be a constant integer"])

/-- `CodeGenerator::getArrayType` — build the nested array type from right
to left. -/
def getArrayType (elementType : LLVMType) (dims : ExprList) :
    LLVMType × List String :=
  getArrayTypeLoop dims.toList.reverse (elementType, [])

/-- Dimension metadata recorded in `SymbolInfo.arrayDims` (lines 1189-1199
and 1269-1279): the literal value for a `NumberExpr` dimension, `0`
otherwise. -/
def extractDimsInfo (dims : ExprList) : List Int :=
  dims.toList.map (fun e =>
    match e with
    | .number n => n
    | _ => 0)

/-- The trailing registration code shared by `generateGlobalVar` and
`generateLocalVar`: `if (!symbolTable.declare(name, info))
error("Redeclaration of variable: " + name);`. -/
def declareOrDiag (st : GenState) (name : String) (info : SymbolInfo) : GenState :=
  let (ok, symtab') := st.symtab.declare name info
  let st' := { st with symtab := symtab' }
  if ok then st'
  else pushErrs st' ["Redeclaration of variable: " ++ name]

/-- `CodeGenerator::generateGlobalVar` — create the global (scalar
initializers must lower to constants; array initializer lists fall back to
zero-initialization) and register the symbol, diagnosing a redeclaration
when `declare` fails.  The C++ passes a null initializer value into
`dyn_cast`; that (crashing) corner is modelled as the non-constant
diagnosis branch. -/
def generateGlobalVar (st : GenState) (declType : TypeSpec) (varDef : VarDef)
    (type : LLVMType) : GenState :=
  let st1 :=
    match varDef.init with
    | some i =>
      match varDef.dims with
      | .nil =>
        let (v, es) := generateExpr st i
        let st' := pushErrs st es
        match v with
        | some vv =>
          if vv.isConstV then st'
          else pushErrs st' ["Global variable initializer must be constant: " ++ varDef.name]
        | none =>
          pushErrs st' ["Global variable initializer must be constant: " ++ varDef.name]
      | .cons _ _ => st
    | none => st
  let slot := st1.nextSlot
  let info : SymbolInfo :=
    { name := varDef.name, type := type, storage := slot,
      isConst := declType.isConst, isGlobal := true, isFunction := false,
      arrayDims := extractDimsInfo varDef.dims }
  declareOrDiag { st1 with nextSlot := slot + 1 } varDef.name info

/-- The initializer phase of `CodeGenerator::generateLocalVar`: a scalar
expression is stored to the slot, a scalar brace list stores its first
element if any, an array initializer is lowered by `initializeArray`. -/
def localVarInit (st1 : GenState) (slot : Nat) (varDef : VarDef) : GenState :=
  match varDef.init with
    | some i =>
      match varDef.dims with
      | .nil =>
        match i with
        | .initList items =>
          match items with
          | .nil => st1
          | .cons first _ =>
            let (v, es) := generateExpr st1 first
            let st' := pushErrs st1 es
            match v with
            | some vv => { st' with emits := st'.emits ++ [EmitRec.storeSlot slot vv] }
            | none => st'
        | _ =>
          let (v, es) := generateExpr st1 i
          let st' := pushErrs st1 es
          match v with
          | some vv => { st' with emits := st'.emits ++ [EmitRec.storeSlot slot vv] }
          | none => st'
      | .cons _ _ =>
        let arrayDims := varDef.dims.toList.filterMap (fun e =>
          match e with
          | Expr.number n => some n
          | _ => (none : Option Int))
        let (stores, es) := initializeArray st1 slot i arrayDims
        { st1 with emits := st1.emits ++ stores, errors := st1.errors ++ es }
    | none => st1

/-- `CodeGenerator::generateLocalVar` — allocate the stack slot, lower the
initializer via `localVarInit`, and register the symbol. -/
def generateLocalVar (st : GenState) (declType : TypeSpec) (varDef : VarDef)
    (type : LLVMType) : GenState :=
  let slot := st.nextSlot
  let st1 := { st with nextSlot := slot + 1, emits := st.emits ++ [EmitRec.allocaE slot] }
  let st2 := localVarInit st1 slot varDef
  let info : SymbolInfo :=
    { name := varDef.name, type := type, storage := slot,
      isConst := declType.isConst, isGlobal := false, isFunction := false,
      arrayDims := extractDimsInfo varDef.dims }
  declareOrDiag st2 varDef.name info

/-- The dead per-declarator dimension extraction of `generateVarDecl`
(lines 1110-1121): its only observable effect is the diagnostic for each
non-literal dimension. -/
def varDeclDimErrs (name : String) (dims : ExprList) : List String :=
  dims.toList.filterMap (fun e =>
    match e with
    | .number _ => none
    | _ => some ("Array size must be constant: " ++ name))

/-- The per-declarator body of `CodeGenerator::generateVarDecl`: build
the (array) type and its diagnostics, then lower the declarator as a
global or a local. -/
def generateVarDeclItem (declTy : TypeSpec) (baseType : LLVMType)
    (isGlobal : Bool) (acc : GenState) (varDef : VarDef) : GenState :=
  let (type, esTy) :=
    match varDef.dims with
    | .nil => (baseType, [])
    | .cons _ _ => getArrayType baseType varDef.dims
  let esDims :=
    match varDef.dims with
    | .nil => []
    | .cons _ _ => varDeclDimErrs varDef.name varDef.dims
  let acc1 := pushErrs acc (esTy ++ esDims)
  if isGlobal then generateGlobalVar acc1 declTy varDef type
  else generateLocalVar acc1 declTy varDef type

/-- `CodeGenerator::generateVarDecl` — lower each declarator in order;
whether the declaration is global is decided once by
`isCurrentScopeGlobal`. -/
def generateVarDecl (st : GenState) (d : VarDecl) : GenState :=
  let baseType := getLLVMType d.type
  let isGlobal := st.symtab.length == 1
  d.vars.foldl (generateVarDeclItem d.type baseType isGlobal) st

/-- `CodeGenerator::generateDecl` — the only concrete declaration kind is
`VarDecl`. -/
def generateDecl (st : GenState) (d : VarDecl) : GenState :=
  generateVarDecl st d

/- ========================================================================= -/
/-  Statement lowering (semantic.cpp lines 772-1080)                        -/
/- ========================================================================= -/

mutual
/-- `CodeGenerator::generateStmt` and the dedicated per-statement
generators.  The state tracks exactly what the balance claims observe: the
scope stack, the loop-context stack size, the has-terminator flag of the
current insertion block, the diagnostics and the emitted stores.  Setting
the insertion point to a freshly created block clears the terminator flag;
emitting `br`/`cond_br`/`ret` sets it.  The first argument is recursion
fuel (the C++ recursion is bounded by the statement tree; with fuel at
least the nesting depth the model agrees with it, and fuel exhaustion
leaves the state unchanged). -/
def generateStmt : Nat → GenState → Stmt → GenState
  | 0, st, _ => st
  | fuel + 1, st, s =>
    match s with
    | .exprStmt e =>
      match e with
      | none => st
      | some ex =>
        let (_, es) := generateExpr st ex
        pushErrs st es
    | .assign lhsName lhsIndices rhs =>
      match st.symtab.lookup lhsName with
      | none => pushErrs st ["Undeclared variable: " ++ lhsName]
      | some sym =>
        if sym.isConst then
          pushErrs st ["Cannot assign to const variable: " ++ lhsName]
        else
          let (v, esV) := generateExpr st rhs
          let st1 := pushErrs st esV
          match v with
          | none => st1
          | some vv =>
            match lhsIndices with
            | .cons i0 irest =>
              let (p, esP) := getArrayElementPtr st1 lhsName (.cons i0 irest)
              let st2 := pushErrs st1 esP
              match p with
              | some _ => { st2 with emits := st2.emits ++ [EmitRec.storeDyn vv] }
              | none => st2
            | .nil =>
              { st1 with emits := st1.emits ++ [EmitRec.storeSlot sym.storage vv] }
    | .block items =>
      let st1 := { st with symtab := st.symtab.enterScope }
      let st2 := generateItems fuel st1 items
      { st2 with symtab := st2.symtab.exitScope }
    | .ifS cond thenS elseS =>
      let (c, esC) := generateExpr st cond
      let st1 := pushErrs st esC
      match c with
      | none => st1
      | some cv =>
        let (b, esB) := convertToBool cv
        let st2 := pushErrs st1 esB
        match b with
        | none => st2
        | some _ =>
          let st3 := generateStmt fuel { st2 with term := false } thenS
          let st4 :=
            match elseS with
            | .noneS => st3
            | .someS e => generateStmt fuel { st3 with term := false } e
          { st4 with term := false }
    | .whileS cond body =>
      let stP := { st with loopDepth := st.loopDepth + 1 }
      let stC := { stP with term := false }
      let (c, esC) := generateExpr stC cond
      let st1 := pushErrs stC esC
      match c with
      | none => { st1 with loopDepth := st1.loopDepth - 1 }
      | some cv =>
        let (b, esB) := convertToBool cv
        let st2 := pushErrs st1 esB
        match b with
        | none => { st2 with loopDepth := st2.loopDepth - 1 }
        | some _ =>
          let st3 := generateStmt fuel { st2 with term := false } body
          let st4 := { st3 with term := false }
          { st4 with loopDepth := st4.loopDepth - 1 }
    | .forS init cond step body =>
      let st0 := { st with symtab := st.symtab.enterScope }
      let st1 :=
        match init with
        | .noneI => st0
        | .someI it => generateItem fuel st0 it
      let stP := { st1 with loopDepth := st1.loopDepth + 1 }
      let stC := { stP with term := false }
      match cond with
      | some c =>
        let (v, esV) := generateExpr stC c
        let st2 := pushErrs stC esV
        match v with
        | none =>
          { st2 with loopDepth := st2.loopDepth - 1, symtab := st2.symtab.exitScope }
        | some vv =>
          let (b, esB) := convertToBool vv
          let st3 := pushErrs st2 esB
          match b with
          | none =>
            { st3 with loopDepth := st3.loopDepth - 1, symtab := st3.symtab.exitScope }
          | some _ =>
            let st4 := generateStmt fuel { st3 with term := false } body
            let st5 := { st4 with term := false }
            let st6 :=
              match step with
              | .noneS => st5
              | .someS sp => generateStmt fuel st5 sp
            let st7 := { st6 with term := false }
            { st7 with loopDepth := st7.loopDepth - 1, symtab := st7.symtab.exitScope }
      | none =>
        let st4 := generateStmt fuel { stC with term := false } body
        let st5 := { st4 with term := false }
        let st6 :=
          match step with
          | .noneS => st5
          | .someS sp => generateStmt fuel st5 sp
        let st7 := { st6 with term := false }
        { st7 with loopDepth := st7.loopDepth - 1, symtab := st7.symtab.exitScope }
    | .ret value =>
      match value with
      | some e =>
        let (r, es) := generateExpr st e
        let st1 := pushErrs st es
        match r with
        | some _ => { st1 with term := true }
        | none => st1
      | none => { st with term := true }
    | .brk =>
      if st.loopDepth == 0 then pushErrs st ["Break statement outside loop"]
      else { st with term := true }
    | .cont =>
      if st.loopDepth == 0 then pushErrs st ["Continue statement outside loop"]
      else { st with term := true }

/-- The item loop of `generateBlockStmt`: stop as soon as the current
block has a terminator, otherwise lower the next declaration or
statement. -/
def generateItems : Nat → GenState → StmtItems → GenState
  | 0, st, _ => st
  | fuel + 1, st, l =>
    match l with
    | .nil => st
    | .cons it rest =>
      if st.term then st
      else generateItems fuel (generateItem fuel st it) rest

/-- The per-item dispatch of `generateBlockStmt` (and of the `for`-init
position): a declaration or a statement. -/
def generateItem : Nat → GenState → BlockItem → GenState
  | 0, st, _ => st
  | fuel + 1, st, it =>
    match it with
    | .declItem d => generateDecl st d
    | .stmtItem s => generateStmt fuel st s
end

/- ========================================================================= -/
/-  Function definitions (semantic.cpp lines 1289-1423)                     -/
/- ========================================================================= -/

/-- The IR type of one parameter: array-kind parameters decay to the
(opaque) pointer type. -/
def paramLLVMType (p : FuncParam) : LLVMType :=
  let t := getLLVMType p.type
  if p.isArray then .ptr else t

/-- The `arrayDims` metadata recorded for one parameter: a leading `0` for
the unsized first dimension, then each declared inner dimension (literal
value, or `0` for a non-literal). -/
def paramArrayDims (p : FuncParam) : List Int :=
  if p.isArray then
    0 :: p.dims.toList.map (fun e =>
      match e with
      | Expr.number n => n
      | _ => (0 : Int))
  else []

/-- `CodeGenerator::generateFuncParams` — for each incoming argument:
allocate a slot, store the argument into it, and register the parameter
symbol (the `declare` result is not checked by the source). -/
def generateFuncParams (st : GenState) : List FuncParam → GenState
  | [] => st
  | p :: rest =>
    let ty := paramLLVMType p
    let slot := st.nextSlot
    let argVal : Val := { ty := ty, isConstV := false, src := .fromArg p.name }
    let st1 := { st with
      nextSlot := slot + 1,
      emits := st.emits ++ [EmitRec.allocaE slot, EmitRec.storeSlot slot argVal] }
    let info : SymbolInfo :=
      { name := p.name, type := ty, storage := slot,
        isConst := false, isGlobal := false, isFunction := false,
        arrayDims := paramArrayDims p }
    let (_, symtab') := st1.symtab.declare p.name info
    generateFuncParams { st1 with symtab := symtab' } rest

/-- `CodeGenerator::generateFuncDef` — create the IR function and register
it in the module and the (global) symbol table — the source ignores the
result of this `declare` — then lower the body in a fresh scope with the
parameters spilled to stack slots, and add an implicit `ret void` for void
functions whose last block is unterminated.  `llvm::verifyFunction` is an
external black box and is not modelled. -/
def generateFuncDef (fuel : Nat) (st : GenState) (f : FuncDef) : GenState :=
  let retType := getLLVMType f.returnType
  let paramTypes := f.params.map paramLLVMType
  let fnType := LLVMType.funcTy paramTypes retType
  let fnSlot := st.nextSlot
  let st1 := { st with
    nextSlot := fnSlot + 1,
    funcs := st.funcs ++ [FuncSig.mk f.name f.params.length retType] }
  let fnInfo : SymbolInfo :=
    { name := f.name, type := fnType, storage := fnSlot,
      isConst := false, isGlobal := true, isFunction := true, arrayDims := [] }
  let (_, symtab1) := st1.symtab.declare f.name fnInfo
  let st2 := { st1 with symtab := symtab1, term := false }
  let st3 := { st2 with symtab := st2.symtab.enterScope }
  let st4 := generateFuncParams st3 f.params
  let st5 := generateStmt fuel st4 f.body
  let st6 :=
    if retType.isVoidTy && !st5.term then { st5 with term := true } else st5
  { st6 with symtab := st6.symtab.exitScope }

/-- `CodeGenerator::generate` — lower every top-level unit in source
order (`llvm::verifyModule` is external and not modelled). -/
def generate (fuel : Nat) (st : GenState) : List CompUnitItem → GenState
  | [] => st
  | .funcU f :: rest => generate fuel (generateFuncDef fuel st f) rest
  | .declU d :: rest => generate fuel (generateDecl st d) rest

/- ========================================================================= -/
/-  Short-circuit lowering: basic-block wiring (semantic.cpp lines 419-494) -/
/- ========================================================================= -/

/-- Values in the block-level model of `generateBinaryExpr`: boolean
constants (`ConstantInt::getFalse/getTrue`) and instruction results,
numbered in emission order. -/
inductive CVal where
  | constB (b : Bool)
  | vId (n : Nat)
deriving DecidableEq, Repr

/-- State of the block-level IR emission model: the function's basic-block
list in list order (`func->begin()` is the head; creating a block with the
function as parent, or `func->insert(func->end(), bb)`, appends), the
current insertion block, fresh-id counters, the emitted conditional
branches `(source, true-target, false-target)`, and the emitted phi nodes
`(block, incoming (value, block) pairs)`. -/
structure IRState where
  blocks : List Nat
  cur : Nat
  nextBlock : Nat
  nextVal : Nat
  condBrs : List (Nat × Nat × Nat)
  phis : List (Nat × List (CVal × Nat))
deriving Repr

/-- `func->begin()->getNextNode()` — the second basic block of the
function's current block list. -/
def secondBlock (blocks : List Nat) : Nat := (blocks.get? 1).getD 0

/-- Expressions for the block-level model: an `atom` is any operand whose
lowering emits straight-line instructions into the current block (e.g. the
comparisons and the division of the spec's short-circuit scenario), and
`andE` / `orE` are the short-circuit operators. -/
inductive CExpr where
  | atom
  | andE (lhs rhs : CExpr)
  | orE (lhs rhs : CExpr)

/-- Emit one straight-line instruction into the current block. -/
def emitInstr (st : IRState) : IRState × CVal :=
  ({ st with nextVal := st.nextVal + 1 }, .vId st.nextVal)

/-- Block-level model of `generateBinaryExpr` for `&&` and `||` (the
other operators emit into the current block like atoms do).  Mirrors the
source step by step: evaluate and `convertToBool` the LHS, create the RHS
block (parented, hence appended) and the merge block (unparented), emit
the conditional branch from the current block, lower the RHS in the RHS
block, branch to merge, re-read the insertion block into `rhsBB`, append
the merge block, and build the phi whose constant incoming is attached to
`func->begin()->getNextNode()` and whose other incoming is the RHS value
from the final RHS block. -/
def genShortCircuit (st : IRState) : CExpr → IRState × CVal
  | .atom => emitInstr st
  | .andE lhs rhs =>
    let (st1, _) := genShortCircuit st lhs
    let (st2, _) := emitInstr st1
    let rhsBB := st2.nextBlock
    let mergeBB := st2.nextBlock + 1
    let st3 := { st2 with
      blocks := st2.blocks ++ [rhsBB],
      nextBlock := st2.nextBlock + 2,
      condBrs := st2.condBrs ++ [(st2.cur, rhsBB, mergeBB)],
      cur := rhsBB }
    let (st4, _) := genShortCircuit st3 rhs
    let (st5, rBool) := emitInstr st4
    let rhsFinal := st5.cur
    let st6 := { st5 with blocks := st5.blocks ++ [mergeBB], cur := mergeBB }
    let incoming := [((CVal.constB false), secondBlock st6.blocks), (rBool, rhsFinal)]
    let st7 := { st6 with
      phis := st6.phis ++ [(mergeBB, incoming)],
      nextVal := st6.nextVal + 1 }
    (st7, .vId st6.nextVal)
  | .orE lhs rhs =>
    let (st1, _) := genShortCircuit st lhs
    let (st2, _) := emitInstr st1
    let rhsBB := st2.nextBlock
    let mergeBB := st2.nextBlock + 1
    let st3 := { st2 with
      blocks := st2.blocks ++ [rhsBB],
      nextBlock := st2.nextBlock + 2,
      condBrs := st2.condBrs ++ [(st2.cur, mergeBB, rhsBB)],
      cur := rhsBB }
    let (st4, _) := genShortCircuit st3 rhs
    let (st5, rBool) := emitInstr st4
    let rhsFinal := st5.cur
    let st6 := { st5 with blocks := st5.blocks ++ [mergeBB], cur := mergeBB }
    let incoming := [((CVal.constB true), secondBlock st6.blocks), (rBool, rhsFinal)]
    let st7 := { st6 with
      phis := st6.phis ++ [(mergeBB, incoming)],
      nextVal := st6.nextVal + 1 }
    (st7, .vId st6.nextVal)

/-- The state of a function with only its entry block (id 0), with the
builder positioned there — the situation of the spec's short-circuit
scenario `return (x != 0) && (100 / x > 1);`. -/
def entryOnly : IRState :=
  { blocks := [0], cur := 0, nextBlock := 1, nextVal := 0,
    condBrs := [], phis := [] }

/- ========================================================================= -/
/-  Pointer-parameter array addressing types (semantic.cpp 265-417)         -/
/- ========================================================================= -/

/-- The inner-array type built by the `for (size_t j = arrayDims.size()-1;
j > i; --j)` loops of `getArrayElementPtr`: starting from
`Type::getInt32Ty` — the source assumes every array element is `int` —
wrap one `ArrayType` per positive dimension strictly after position `i`,
innermost first; non-positive dimensions are skipped. -/
def ptrParamInnerType (dims : List Int) (i : Nat) : LLVMType :=
  ((dims.drop (i + 1)).reverse).foldl
    (fun t d => if d > 0 then .arrayTy t d.toNat else t) .i32

/-- The GEP source element types emitted by the pointer-parameter branch of
`getArrayElementPtr` for a symbol with dimension metadata `dims` and
`numIndices` subscripts: the single-subscript branch uses `i32` when there
is at most one recorded dimension and the inner-array type otherwise; the
several-subscripts branch walks the indices left-to-right, using `i32`
once no dimensions remain (on `size_t` arithmetic, `arrayDims.size()-i-1`
leaves the inner loop empty in exactly the `length ≤ i+1` cases). -/
def ptrParamGepTypes (dims : List Int) (numIndices : Nat) : List LLVMType :=
  if numIndices == 1 then
    [if dims.length == 0 || dims.length == 1 then .i32 else ptrParamInnerType dims 0]
  else
    (List.range numIndices).map (fun i =>
      if dims.length - i - 1 == 0 then .i32 else ptrParamInnerType dims i)

/-- The element type `generateLValExpr` loads a subscripted `LVal` at:
the source hard-codes `Type::getInt32Ty` regardless of the symbol's
declared base type. -/
def lvalSubscriptLoadType : LLVMType := .i32

/-- One step of the address-computation trace for a subscripted
pointer-parameter `LVal`. -/
inductive PtrAccess where
  | loadParamPtr (slot : Nat)
  | gepStep (sourceElemType : LLVMType)
  | loadElem (elemType : LLVMType)
deriving Repr

/-- The operation trace of lowering a subscripted pointer-parameter `LVal`
in value position: `generateLValExpr` calls `getArrayElementPtr`, which
first loads the pointer from the parameter's stack slot and then applies
one GEP per step with the types of `ptrParamGepTypes`; finally the element
is loaded at `lvalSubscriptLoadType`. -/
def lvalPtrParamTrace (sym : SymbolInfo) (numIndices : Nat) : List PtrAccess :=
  .loadParamPtr sym.storage ::
    (ptrParamGepTypes sym.arrayDims numIndices).map .gepStep ++
    [.loadElem lvalSubscriptLoadType]

/-- The parameter `char a[]` of the claim: a `char` array parameter with
no declared inner dimensions. -/
def charArrayParam : FuncParam :=
  { type := { kind := .CHAR, isConst := false }, name := "a",
    isArray := true, dims := .nil }

/-- The symbol `generateFuncParams` registers for `char a[]`: pointer
type, stack slot, dimension metadata `[0]`. -/
def charArrayParamSym : SymbolInfo :=
  { name := "a", type := paramLLVMType charArrayParam, storage := 0,
    isConst := false, isGlobal := false, isFunction := false,
    arrayDims := paramArrayDims charArrayParam }

/- ========================================================================= -/
/-  Tokens (src/lexer/lexer.h)                                              -/
/- ========================================================================= -/

/-- The token kinds of the lexer (the subset the modelled parser code
inspects, plus `TOK_ERROR` so that arbitrary streams are expressible). -/
inductive TokenType where
  | TOK_EOF
  | TOK_INT
  | TOK_CHAR
  | TOK_VOID
  | TOK_CONST
  | TOK_IF
  | TOK_ELSE
  | TOK_WHILE
  | TOK_FOR
  | TOK_RETURN
  | TOK_IDENTIFIER
  | TOK_NUMBER
  | TOK_STRING
  | TOK_CHAR_LITERAL
  | TOK_PLUS
  | TOK_MINUS
  | TOK_STAR
  | TOK_SLASH
  | TOK_PERCENT
  | TOK_ASSIGN
  | TOK_EQ
  | TOK_NE
  | TOK_LT
  | TOK_GT
  | TOK_LE
  | TOK_GE
  | TOK_AND
  | TOK_OR
  | TOK_XOR
  | TOK_NOT
  | TOK_TILDE
  | TOK_LAND
  | TOK_LOR
  | TOK_SHL
  | TOK_SHR
  | TOK_INC
  | TOK_DEC
  | TOK_LPAREN
  | TOK_RPAREN
  | TOK_LBRACE
  | TOK_RBRACE
  | TOK_LBRACKET
  | TOK_RBRACKET
  | TOK_SEMICOLON
  | TOK_COMMA
  | TOK_COLON
  | TOK_QUESTION
  | TOK_ERROR
deriving DecidableEq, Repr

/-- A token: kind and lexeme (locations only feed diagnostics and are not
modelled). -/
structure Token where
  type : TokenType
  lexeme : String
deriving DecidableEq, Repr

/- ========================================================================= -/
/-  Panic-mode recovery (parser.cpp lines 57-83)                            -/
/- ========================================================================= -/

/-- The statement/declaration start set at which `synchronize` stops
without consuming: `int`, `char`, `void`, `if`, `while`, `for`,
`return`. -/
def isSyncStart : TokenType → Bool
  | .TOK_INT => true
  | .TOK_CHAR => true
  | .TOK_VOID => true
  | .TOK_IF => true
  | .TOK_WHILE => true
  | .TOK_FOR => true
  | .TOK_RETURN => true
  | _ => false

/-- The `while (!check(TOK_EOF))` loop of `Parser::synchronize`: consume a
semicolon and stop just after it, stop (without consuming) at a
start-set token, otherwise skip the token.  The token stream is the list
of not-yet-consumed tokens; an empty list means the current token is
`TOK_EOF` (the lexer repeats `TOK_EOF` forever). -/
def syncLoop : List Token → List Token
  | [] => []
  | t :: rest =>
    if t.type = .TOK_SEMICOLON then rest
    else if isSyncStart t.type then t :: rest
    else syncLoop rest

/-- `Parser::synchronize` — unconditionally `advance()` past the current
token, then run the skip loop. -/
def synchronize : List Token → List Token
  | [] => []
  | _ :: rest => syncLoop rest

/- ========================================================================= -/
/-  Expression tower (parser.cpp lines 643-955)                             -/
/- ========================================================================= -/

/-- What can escape the modelled parser besides a result: the
`std::out_of_range` / `std::invalid_argument` exceptions of `std::stoi`
(the parser has no handler for either, so they propagate out of
`parse`), and exhaustion of the recursion fuel of the model. -/
inductive ParseExc where
  | stoiOutOfRange
  | stoiInvalidArg
  | outOfFuel
deriving DecidableEq, Repr

/-- `std::stoi` on a numeric lexeme: read the longest leading run of
decimal digits (a hexadecimal lexeme such as `0x1F` therefore reads as
`0`), throw `std::invalid_argument` when there is none, and throw
`std::out_of_range` when the value exceeds `INT_MAX = 2^31 - 1` (lexemes
carry no sign, so only the upper bound matters). -/
def stoi (s : String) : Except ParseExc Int :=
  let digits := s.toList.takeWhile (fun c => c.isDigit)
  if digits.isEmpty then .error .stoiInvalidArg
  else
    let v : Nat := digits.foldl (fun a c => a * 10 + (c.toNat - 48)) 0
    if v > 2147483647 then .error .stoiOutOfRange
    else .ok (Int.ofNat v)

/-- Parser state: the not-yet-consumed token stream (head = `current_`)
and the number of recorded diagnostics. -/
structure PState where
  toks : List Token
  errCount : Nat
deriving DecidableEq, Repr

/-- The kind of `current_` (`TOK_EOF` when the stream is exhausted). -/
def curType (ps : PState) : TokenType :=
  match ps.toks with
  | [] => .TOK_EOF
  | t :: _ => t.type

/-- The lexeme of `current_`. -/
def curLexeme (ps : PState) : String :=
  match ps.toks with
  | [] => ""
  | t :: _ => t.lexeme

/-- `Parser::advance`. -/
def advanceP (ps : PState) : PState :=
  { ps with toks := ps.toks.tail }

/-- `Parser::check`. -/
def checkP (ps : PState) (ty : TokenType) : Bool :=
  curType ps == ty

/-- `Parser::consume` — advance when the kind matches, otherwise record a
diagnostic and keep the token. -/
def consumeP (ps : PState) (ty : TokenType) : PState :=
  if checkP ps ty then advanceP ps
  else { ps with errCount := ps.errCount + 1 }

/-- `Parser::error` during expression parsing. -/
def errP (ps : PState) : PState :=
  { ps with errCount := ps.errCount + 1 }

/-- `Parser::isUnaryOp`. -/
def isUnaryOpP (ps : PState) : Bool :=
  checkP ps .TOK_PLUS || checkP ps .TOK_MINUS || checkP ps .TOK_NOT ||
  checkP ps .TOK_TILDE || checkP ps .TOK_INC || checkP ps .TOK_DEC

/-- Append one expression at the end of an `ExprList` (the `addArg` /
`addIndex` push-back). -/
def appendExprList : ExprList → Expr → ExprList
  | .nil, e => .cons e .nil
  | .cons h t, e => .cons h (appendExprList t e)

mutual
/-- `Parser::parseExpr` — the top of the expression tower.  All functions
of the tower carry explicit recursion fuel; with enough fuel the model
agrees with the terminating C++ recursion, and exhaustion surfaces as the
distinguished `outOfFuel` exception. -/
def parseExprF : Nat → PState → Except ParseExc (Expr × PState)
  | 0, _ => .error .outOfFuel
  | fuel + 1, ps => parseConditionalExprF fuel ps

/-- `Parser::parseConditionalExpr` — `LOrExp` optionally followed by
`"?" Exp ":" ConditionalExp` (right associative). -/
def parseConditionalExprF : Nat → PState → Except ParseExc (Expr × PState)
  | 0, _ => .error .outOfFuel
  | fuel + 1, ps =>
    match parseLOrExprF fuel ps with
    | .error e => .error e
    | .ok (c, ps1) =>
      if checkP ps1 .TOK_QUESTION then
        match parseExprF fuel (advanceP ps1) with
        | .error e => .error e
        | .ok (t, ps2) =>
          let ps3 := consumeP ps2 .TOK_COLON
          match parseConditionalExprF fuel ps3 with
          | .error e => .error e
          | .ok (f, ps4) => .ok (.ternary c t f, ps4)
      else .ok (c, ps1)

/-- `Parser::parseLOrExpr` — `LAndExp ( "||" LAndExp )*`. -/
def parseLOrExprF : Nat → PState → Except ParseExc (Expr × PState)
  | 0, _ => .error .outOfFuel
  | fuel + 1, ps =>
    match parseLAndExprF fuel ps with
    | .error e => .error e
    | .ok (l, ps1) => parseLOrLoopF fuel l ps1

/-- The `while (match(TOK_LOR))` loop of `parseLOrExpr`. -/
def parseLOrLoopF : Nat → Expr → PState → Except ParseExc (Expr × PState)
  | 0, _, _ => .error .outOfFuel
  | fuel + 1, l, ps =>
    if checkP ps .TOK_LOR then
      match parseLAndExprF fuel (advanceP ps) with
      | .error e => .error e
      | .ok (r, ps1) => parseLOrLoopF fuel (.binary l "||" r) ps1
    else .ok (l, ps)

/-- `Parser::parseLAndExpr` — `OrExp ( "&&" OrExp )*`. -/
def parseLAndExprF : Nat → PState → Except ParseExc (Expr × PState)
  | 0, _ => .error .outOfFuel
  | fuel + 1, ps =>
    match parseOrExprF fuel ps with
    | .error e => .error e
    | .ok (l, ps1) => parseLAndLoopF fuel l ps1

/-- The `while (match(TOK_LAND))` loop of `parseLAndExpr`. -/
def parseLAndLoopF : Nat → Expr → PState → Except ParseExc (Expr × PState)
  | 0, _, _ => .error .outOfFuel
  | fuel + 1, l, ps =>
    if checkP ps .TOK_LAND then
      match parseOrExprF fuel (advanceP ps) with
      | .error e => .error e
      | .ok (r, ps1) => parseLAndLoopF fuel (.binary l "&&" r) ps1
    else .ok (l, ps)

/-- `Parser::parseOrExpr` — `XorExp ( "|" XorExp )*`. -/
def parseOrExprF : Nat → PState → Except ParseExc (Expr × PState)
  | 0, _ => .error .outOfFuel
  | fuel + 1, ps =>
    match parseXorExprF fuel ps with
    | .error e => .error e
    | .ok (l, ps1) => parseOrLoopF fuel l ps1

/-- The `while (match(TOK_OR))` loop of `parseOrExpr`. -/
def parseOrLoopF : Nat → Expr → PState → Except ParseExc (Expr × PState)
  | 0, _, _ => .error .outOfFuel
  | fuel + 1, l, ps =>
    if checkP ps .TOK_OR then
      match parseXorExprF fuel (advanceP ps) with
      | .error e => .error e
      | .ok (r, ps1) => parseOrLoopF fuel (.binary l "|" r) ps1
    else .ok (l, ps)

/-- `Parser::parseXorExpr` — `AndExp ( "^" AndExp )*`. -/
def parseXorExprF : Nat → PState → Except ParseExc (Expr × PState)
  | 0, _ => .error .outOfFuel
  | fuel + 1, ps =>
    match parseAndExprF fuel ps with
    | .error e => .error e
    | .ok (l, ps1) => parseXorLoopF fuel l ps1

/-- The `while (match(TOK_XOR))` loop of `parseXorExpr`. -/
def parseXorLoopF : Nat → Expr → PState → Except ParseExc (Expr × PState)
  | 0, _, _ => .error .outOfFuel
  | fuel + 1, l, ps =>
    if checkP ps .TOK_XOR then
      match parseAndExprF fuel (advanceP ps) with
      | .error e => .error e
      | .ok (r, ps1) => parseXorLoopF fuel (.binary l "^" r) ps1
    else .ok (l, ps)

/-- `Parser::parseAndExpr` — `EqExp ( "&" EqExp )*`. -/
def parseAndExprF : Nat → PState → Except ParseExc (Expr × PState)
  | 0, _ => .error .outOfFuel
  | fuel + 1, ps =>
    match parseEqExprF fuel ps with
    | .error e => .error e
    | .ok (l, ps1) => parseAndLoopF fuel l ps1

/-- The `while (match(TOK_AND))` loop of `parseAndExpr`. -/
def parseAndLoopF : Nat → Expr → PState → Except ParseExc (Expr × PState)
  | 0, _, _ => .error .outOfFuel
  | fuel + 1, l, ps =>
    if checkP ps .TOK_AND then
      match parseEqExprF fuel (advanceP ps) with
      | .error e => .error e
      | .ok (r, ps1) => parseAndLoopF fuel (.binary l "&" r) ps1
    else .ok (l, ps)

/-- `Parser::parseEqExpr` — `RelExp ( ("==" | "!=") RelExp )*`; the
operator string is the consumed token's lexeme. -/
def parseEqExprF : Nat → PState → Except ParseExc (Expr × PState)
  | 0, _ => .error .outOfFuel
  | fuel + 1, ps =>
    match parseRelExprF fuel ps with
    | .error e => .error e
    | .ok (l, ps1) => parseEqLoopF fuel l ps1

/-- The equality-operator loop of `parseEqExpr`. -/
def parseEqLoopF : Nat → Expr → PState → Except ParseExc (Expr × PState)
  | 0, _, _ => .error .outOfFuel
  | fuel + 1, l, ps =>
    if checkP ps .TOK_EQ || checkP ps .TOK_NE then
      let op := curLexeme ps
      match parseRelExprF fuel (advanceP ps) with
      | .error e => .error e
      | .ok (r, ps1) => parseEqLoopF fuel (.binary l op r) ps1
    else .ok (l, ps)

/-- `Parser::parseRelExpr` — `ShiftExp ( ("<" | ">" | "<=" | ">=")
ShiftExp )*`. -/
def parseRelExprF : Nat → PState → Except ParseExc (Expr × PState)
  | 0, _ => .error .outOfFuel
  | fuel + 1, ps =>
    match parseShiftExprF fuel ps with
    | .error e => .error e
    | .ok (l, ps1) => parseRelLoopF fuel l ps1

/-- The relational-operator loop of `parseRelExpr`. -/
def parseRelLoopF : Nat → Expr → PState → Except ParseExc (Expr × PState)
  | 0, _, _ => .error .outOfFuel
  | fuel + 1, l, ps =>
    if checkP ps .TOK_LT || checkP ps .TOK_GT || checkP ps .TOK_LE ||
        checkP ps .TOK_GE then
      let op := curLexeme ps
      match parseShiftExprF fuel (advanceP ps) with
      | .error e => .error e
      | .ok (r, ps1) => parseRelLoopF fuel (.binary l op r) ps1
    else .ok (l, ps)

/-- `Parser::parseShiftExpr` — `AddExp ( ("<<" | ">>") AddExp )*`. -/
def parseShiftExprF : Nat → PState → Except ParseExc (Expr × PState)
  | 0, _ => .error .outOfFuel
  | fuel + 1, ps =>
    match parseAddExprF fuel ps with
    | .error e => .error e
    | .ok (l, ps1) => parseShiftLoopF fuel l ps1

/-- The shift-operator loop of `parseShiftExpr`. -/
def parseShiftLoopF : Nat → Expr → PState → Except ParseExc (Expr × PState)
  | 0, _, _ => .error .outOfFuel
  | fuel + 1, l, ps =>
    if checkP ps .TOK_SHL || checkP ps .TOK_SHR then
      let op := curLexeme ps
      match parseAddExprF fuel (advanceP ps) with
      | .error e => .error e
      | .ok (r, ps1) => parseShiftLoopF fuel (.binary l op r) ps1
    else .ok (l, ps)

/-- `Parser::parseAddExpr` — `MulExp ( ("+" | "-") MulExp )*`. -/
def parseAddExprF : Nat → PState → Except ParseExc (Expr × PState)
  | 0, _ => .error .outOfFuel
  | fuel + 1, ps =>
    match parseMulExprF fuel ps with
    | .error e => .error e
    | .ok (l, ps1) => parseAddLoopF fuel l ps1

/-- The additive-operator loop of `parseAddExpr`. -/
def parseAddLoopF : Nat → Expr → PState → Except ParseExc (Expr × PState)
  | 0, _, _ => .error .outOfFuel
  | fuel + 1, l, ps =>
    if checkP ps .TOK_PLUS || checkP ps .TOK_MINUS then
      let op := curLexeme ps
      match parseMulExprF fuel (advanceP ps) with
      | .error e => .error e
      | .ok (r, ps1) => parseAddLoopF fuel (.binary l op r) ps1
    else .ok (l, ps)

/-- `Parser::parseMulExpr` — `UnaryExp ( ("*" | "/" | "%") UnaryExp )*`. -/
def parseMulExprF : Nat → PState → Except ParseExc (Expr × PState)
  | 0, _ => .error .outOfFuel
  | fuel + 1, ps =>
    match parseUnaryExprF fuel ps with
    | .error e => .error e
    | .ok (l, ps1) => parseMulLoopF fuel l ps1

/-- The multiplicative-operator loop of `parseMulExpr`. -/
def parseMulLoopF : Nat → Expr → PState → Except ParseExc (Expr × PState)
  | 0, _, _ => .error .outOfFuel
  | fuel + 1, l, ps =>
    if checkP ps .TOK_STAR || checkP ps .TOK_SLASH || checkP ps .TOK_PERCENT then
      let op := curLexeme ps
      match parseUnaryExprF fuel (advanceP ps) with
      | .error e => .error e
      | .ok (r, ps1) => parseMulLoopF fuel (.binary l op r) ps1
    else .ok (l, ps)

/-- `Parser::parseUnaryExpr` — a unary operator applied recursively, an
identifier heading a call or a subscripted `LVal`, or a primary
expression. -/
def parseUnaryExprF : Nat → PState → Except ParseExc (Expr × PState)
  | 0, _ => .error .outOfFuel
  | fuel + 1, ps =>
    if isUnaryOpP ps then
      let op := curLexeme ps
      match parseUnaryExprF fuel (advanceP ps) with
      | .error e => .error e
      | .ok (r, ps1) => .ok (.unary op r, ps1)
    else if checkP ps .TOK_IDENTIFIER then
      let name := curLexeme ps
      let ps1 := advanceP ps
      if checkP ps1 .TOK_LPAREN then
        let ps2 := advanceP ps1
        if checkP ps2 .TOK_RPAREN then
          .ok (.funcCall name .nil, advanceP ps2)
        else
          match parseExprF fuel ps2 with
          | .error e => .error e
          | .ok (a, ps3) =>
            match parseArgsLoopF fuel (ExprList.cons a .nil) ps3 with
            | .error e => .error e
            | .ok (args, ps4) =>
              .ok (.funcCall name args, consumeP ps4 .TOK_RPAREN)
      else
        match parseSubscriptsF fuel ExprList.nil ps1 with
        | .error e => .error e
        | .ok (indices, ps2) => .ok (.lval name indices, ps2)
    else
      parsePrimaryExprF fuel ps

/-- The `while (match(TOK_COMMA))` argument loop of the call branch of
`parseUnaryExpr`.  The accumulator carries the arguments parsed so far in
order. -/
def parseArgsLoopF : Nat → ExprList → PState → Except ParseExc (ExprList × PState)
  | 0, _, _ => .error .outOfFuel
  | fuel + 1, acc, ps =>
    if checkP ps .TOK_COMMA then
      match parseExprF fuel (advanceP ps) with
      | .error e => .error e
      | .ok (a, ps1) => parseArgsLoopF fuel (appendExprList acc a) ps1
    else .ok (acc, ps)

/-- The `while (match(TOK_LBRACKET))` subscript loop shared by the `LVal`
branch of `parseUnaryExpr` and by `parseLVal`. -/
def parseSubscriptsF : Nat → ExprList → PState → Except ParseExc (ExprList × PState)
  | 0, _, _ => .error .outOfFuel
  | fuel + 1, acc, ps =>
    if checkP ps .TOK_LBRACKET then
      match parseExprF fuel (advanceP ps) with
      | .error e => .error e
      | .ok (i, ps1) =>
        parseSubscriptsF fuel (appendExprList acc i) (consumeP ps1 .TOK_RBRACKET)
    else .ok (acc, ps)

/-- `Parser::parsePrimaryExpr` — parenthesized expression, numeric literal
(via `std::stoi` on the lexeme, whose exceptions propagate), character
literal (first lexeme byte), string literal, `LVal`, or a diagnosed
failure yielding a null expression. -/
def parsePrimaryExprF : Nat → PState → Except ParseExc (Expr × PState)
  | 0, _ => .error .outOfFuel
  | fuel + 1, ps =>
    if checkP ps .TOK_LPAREN then
      match parseExprF fuel (advanceP ps) with
      | .error e => .error e
      | .ok (e, ps1) => .ok (e, consumeP ps1 .TOK_RPAREN)
    else if checkP ps .TOK_NUMBER then
      match stoi (curLexeme ps) with
      | .error e => .error e
      | .ok v => .ok (.number v, advanceP ps)
    else if checkP ps .TOK_CHAR_LITERAL then
      let v := match (curLexeme ps).toList with
        | [] => 0
        | c :: _ => c.toNat
      .ok (.charE v, advanceP ps)
    else if checkP ps .TOK_STRING then
      .ok (.stringE (curLexeme ps), advanceP ps)
    else if checkP ps .TOK_IDENTIFIER then
      let name := curLexeme ps
      match parseSubscriptsF fuel ExprList.nil (advanceP ps) with
      | .error e => .error e
      | .ok (indices, ps1) => .ok (.lval name indices, ps1)
    else
      .ok (.nullE, errP ps)
end

/- ========================================================================= -/
/-  Helper lemmas                                                           -/
/- ========================================================================= -/

theorem runScopeOps_pos (ops : List ScopeOp) :
    ∀ st : SymbolTable, 1 ≤ st.length → 1 ≤ (runScopeOps st ops).length := by
  induction ops with
  | nil => intro st h; simpa [runScopeOps] using h
  | cons op rest ih =>
    intro st h
    cases op with
    | enter =>
      apply ih
      simp [applyScopeOp, SymbolTable.enterScope]
    | exit =>
      apply ih
      simp only [applyScopeOp, SymbolTable.exitScope]
      by_cases hl : st.length > 1
      · simp [hl]; omega
      · simp [hl]; omega

theorem syncLoop_spec (l : List Token) :
    ∃ k, k ≤ l.length ∧ syncLoop l = l.drop k ∧
      (syncLoop l = [] ∨
       (∃ t rest, syncLoop l = t :: rest ∧ isSyncStart t.type = true) ∨
       (∃ t, l.get? (k - 1) = some t ∧ t.type = .TOK_SEMICOLON ∧ 1 ≤ k)) := by
  induction l with
  | nil => exact ⟨0, by simp [syncLoop]⟩
  | cons t rest ih =>
    by_cases hs : t.type = .TOK_SEMICOLON
    · refine ⟨1, by simp, ?_, ?_⟩
      · simp [syncLoop, hs]
      · exact Or.inr (Or.inr ⟨t, by simp [hs]⟩)
    · by_cases hst : isSyncStart t.type = true
      · refine ⟨0, by simp, ?_, ?_⟩
        · simp [syncLoop, hs, hst]
        · exact Or.inr (Or.inl ⟨t, rest, by simp [syncLoop, hs, hst], hst⟩)
      · obtain ⟨k, hk, hdrop, hstop⟩ := ih
        have hv : syncLoop (t :: rest) = syncLoop rest := by
          simp [syncLoop, hs, hst]
        refine ⟨k + 1, by simpa using hk, by simpa [hv] using hdrop, ?_⟩
        rcases hstop with h1 | h2 | ⟨u, hu, hty, hk1⟩
        · exact Or.inl (by simpa [hv] using h1)
        · exact Or.inr (Or.inl (by simpa [hv] using h2))
        · refine Or.inr (Or.inr ⟨u, ?_, hty, by omega⟩)
          have : k + 1 - 1 = k := by omega
          rw [this]
          have hk0 : k = (k - 1) + 1 := by omega
          rw [hk0]
          simpa using hu

/- ========================================================================= -/
/-  Claim theorems                                                          -/
/- ========================================================================= -/

/-- C9: the symbol table holds at least one scope at every point: the
constructor pushes the global scope, and since `exitScope` is a no-op when
only the root remains, no sequence of `enterScope` / `exitScope` calls can
empty the scope stack. -/
theorem symbol_table_never_empty :
    SymbolTable.initial.length = 1 ∧
    ∀ ops : List ScopeOp, 1 ≤ (runScopeOps SymbolTable.initial ops).length := by
  refine ⟨rfl, fun ops => ?_⟩
  exact runScopeOps_pos ops SymbolTable.initial (by simp [SymbolTable.initial])

/-- C5: from any parser state whose current token is not `TOK_EOF`,
`synchronize` consumes at least one token (so the remaining stream is
strictly shorter — the routine itself is a terminating function of the
finite stream), and it stops either just after a `;` (which it consumes),
or at the next token of the start set `int, char, void, if, while, for,
return` (left unconsumed), or at end of input. -/
theorem synchronize_progress (ts : List Token) (h : ts ≠ []) :
    (synchronize ts).length < ts.length ∧
    ∃ k, 1 ≤ k ∧ synchronize ts = ts.drop k ∧
      (synchronize ts = [] ∨
       (∃ t rest, synchronize ts = t :: rest ∧ isSyncStart t.type = true) ∨
       (∃ t, ts.get? (k - 1) = some t ∧ t.type = .TOK_SEMICOLON)) := by
  match ts, h with
  | t :: rest, _ =>
    have hsync : synchronize (t :: rest) = syncLoop rest := rfl
    obtain ⟨k, hk, hdrop, hstop⟩ := syncLoop_spec rest
    constructor
    · rw [hsync, hdrop]
      simp only [List.length_cons, List.length_drop]
      omega
    · refine ⟨k + 1, by omega, ?_, ?_⟩
      · rw [hsync, hdrop]; rfl
      · rcases hstop with h1 | h2 | ⟨u, hu, hty, hk1⟩
        · exact Or.inl (by rw [hsync]; exact h1)
        · exact Or.inr (Or.inl (by rw [hsync]; exact h2))
        · refine Or.inr (Or.inr ⟨u, ?_, hty⟩)
          have : k + 1 - 1 = k := by omega
          rw [this]
          have hk0 : k = (k - 1) + 1 := by omega
          rw [hk0]
          simpa using hu

/-- Witness for C5 at the stream `x ; int`: the hypotheses are discharged
at a concrete input. -/
theorem synchronize_progress_witness :
    (synchronize [Token.mk .TOK_IDENTIFIER "x", Token.mk .TOK_SEMICOLON ";",
        Token.mk .TOK_INT "int"]).length <
      [Token.mk .TOK_IDENTIFIER "x", Token.mk .TOK_SEMICOLON ";",
        Token.mk .TOK_INT "int"].length ∧
    ∃ k, 1 ≤ k ∧
      synchronize [Token.mk .TOK_IDENTIFIER "x", Token.mk .TOK_SEMICOLON ";",
        Token.mk .TOK_INT "int"] =
        [Token.mk .TOK_IDENTIFIER "x", Token.mk .TOK_SEMICOLON ";",
          Token.mk .TOK_INT "int"].drop k ∧
      (synchronize [Token.mk .TOK_IDENTIFIER "x", Token.mk .TOK_SEMICOLON ";",
          Token.mk .TOK_INT "int"] = [] ∨
       (∃ t rest,
          synchronize [Token.mk .TOK_IDENTIFIER "x", Token.mk .TOK_SEMICOLON ";",
            Token.mk .TOK_INT "int"] = t :: rest ∧ isSyncStart t.type = true) ∨
       (∃ t,
          [Token.mk .TOK_IDENTIFIER "x", Token.mk .TOK_SEMICOLON ";",
            Token.mk .TOK_INT "int"].get? (k - 1) = some t ∧
          t.type = .TOK_SEMICOLON)) :=
  synchronize_progress
    [Token.mk .TOK_IDENTIFIER "x", Token.mk .TOK_SEMICOLON ";",
     Token.mk .TOK_INT "int"] (by simp)

/-- C6: the expression tower gives multiplicative operators higher
precedence than additive ones, each level left-associative: the token
stream of `a + b * c` parses to `Binary(+, a, Binary(*, b, c))` and that
of `a * b + c` parses to `Binary(+, Binary(*, a, b), c)`. -/
theorem addmul_precedence :
    parseExprF 50
        { toks := [Token.mk .TOK_IDENTIFIER "a", Token.mk .TOK_PLUS "+",
                   Token.mk .TOK_IDENTIFIER "b", Token.mk .TOK_STAR "*",
                   Token.mk .TOK_IDENTIFIER "c"], errCount := 0 } =
      .ok (.binary (.lval "a" .nil) "+"
             (.binary (.lval "b" .nil) "*" (.lval "c" .nil)),
           { toks := [], errCount := 0 }) ∧
    parseExprF 50
        { toks := [Token.mk .TOK_IDENTIFIER "a", Token.mk .TOK_STAR "*",
                   Token.mk .TOK_IDENTIFIER "b", Token.mk .TOK_PLUS "+",
                   Token.mk .TOK_IDENTIFIER "c"], errCount := 0 } =
      .ok (.binary (.binary (.lval "a" .nil) "*" (.lval "b" .nil)) "+"
             (.lval "c" .nil),
           { toks := [], errCount := 0 }) :=
  ⟨rfl, rfl⟩

/-- C8 (divergence witness): on a numeric literal whose lexeme exceeds the
32-bit signed range, `parsePrimaryExpr` calls `std::stoi`, which throws
`std::out_of_range`; the parser installs no handler, so the exception
escapes the expression tower (and hence `Parser::parse`) instead of being
recorded in the error list. -/
theorem parse_number_out_of_range_throws :
    stoi "2147483648" = .error .stoiOutOfRange ∧
    parseExprF 50
        { toks := [Token.mk .TOK_NUMBER "2147483648",
                   Token.mk .TOK_SEMICOLON ";"], errCount := 0 } =
      .error .stoiOutOfRange :=
  ⟨rfl, rfl⟩

/-- C1 (divergence witness): lowering `lhs && rhs` with the builder in the
entry block — the situation of the spec's own short-circuit scenario —
emits the conditional branch from block 0, yet attaches the constant-false
phi incoming to `func->begin()->getNextNode()`, which here is block 1, the
RHS block itself: the phi does not have an incoming from the block that
emitted the branch, and both of its entries name the RHS block. -/
theorem and_phi_incoming_miswired :
    genShortCircuit entryOnly (.andE .atom .atom) =
      ({ blocks := [0, 1, 2], cur := 2, nextBlock := 3, nextVal := 5,
         condBrs := [(0, 1, 2)],
         phis := [(2, [(.constB false, 1), (.vId 3, 1)])] }, .vId 4) ∧
    (genShortCircuit entryOnly (.andE .atom .atom)).1.phis ≠
      [(2, [(.constB false, 0), (.vId 3, 1)])] :=
  ⟨rfl, by decide⟩

theorem ptr_param_gep_types_uniform (dims : List Int) (n : Nat) (h : 1 ≤ n) :
    ptrParamGepTypes dims n = (List.range n).map (fun i =>
      if dims.length ≤ i + 1 then LLVMType.i32 else ptrParamInnerType dims i) := by
  match n, h with
  | 1, _ =>
    have hr : List.range 1 = [0] := rfl
    simp only [ptrParamGepTypes, hr, List.map_cons, List.map_nil]
    rcases hl : dims.length with _ | m
    · simp
    · rcases m with _ | m'
      · simp
      · have hnot : ¬ (m' + 1 + 1 ≤ 0 + 1) := by omega
        simp [hnot]
  | (n + 2), _ =>
    have hne : ((n + 2 : Nat) == 1) = false := by simp
    simp only [ptrParamGepTypes, hne, Bool.false_eq_true, if_false]
    apply List.map_congr_left
    intro i _
    have hcond : (dims.length - i - 1 == 0) = decide (dims.length ≤ i + 1) := by
      rcases le_or_lt dims.length (i + 1) with hle | hlt
      · have h0 : dims.length - i - 1 = 0 := by omega
        simp [h0, hle]
      · have h0 : ¬ dims.length ≤ i + 1 := by omega
        have h1 : dims.length - i - 1 ≠ 0 := by omega
        simp [h0, h1]
    rw [hcond]
    by_cases hc : dims.length ≤ i + 1 <;> simp [hc]

/-- C2 counterexample: for the parameter `char a[]` — whose declared base
type lowers to `i8` — a single-subscript access is lowered by loading the
parameter's pointer and then GEPping and loading at element type `i32`,
not `i8`: the source hard-codes `Type::getInt32Ty` for pointer-parameter
addressing and for the subscripted-`LVal` load. -/
theorem char_param_indexed_at_i32 :
    getLLVMType charArrayParam.type = .i8 ∧
    lvalPtrParamTrace charArrayParamSym 1 =
      [.loadParamPtr 0, .gepStep .i32, .loadElem .i32] ∧
    lvalPtrParamTrace charArrayParamSym 1 ≠
      [.loadParamPtr 0, .gepStep .i8, .loadElem .i8] := by
  refine ⟨rfl, rfl, ?_⟩
  intro h
  have : LLVMType.i32 = LLVMType.i8 := by
    have h2 := List.cons.injEq _ _ _ _ ▸ h
    injection h with h1 hrest
    injection hrest with h2 _
    injection h2
  exact absurd this (by intro hh; cases hh)

/-- C2 (amended): for a subscripted `LVal` on a pointer-typed parameter
symbol, the lowering first loads the pointer from the parameter's stack
slot, then applies the subscripts left-to-right, the address computation
at step `i` using the inner element type derived from the symbol's
recorded `array_dims` after position `i` — but built over the hard-coded
base element type `i32` regardless of the parameter's declared base type
— and finally loads the element at `i32`. -/
theorem ptr_param_subscript_lowering (sym : SymbolInfo) (n : Nat) (h : 1 ≤ n) :
    lvalPtrParamTrace sym n =
      .loadParamPtr sym.storage ::
        ((List.range n).map (fun i =>
           if sym.arrayDims.length ≤ i + 1 then LLVMType.i32
           else ptrParamInnerType sym.arrayDims i)).map PtrAccess.gepStep ++
        [.loadElem .i32] := by
  unfold lvalPtrParamTrace lvalSubscriptLoadType
  rw [ptr_param_gep_types_uniform sym.arrayDims n h]

/-- Witness for C2's amended theorem at a two-subscript access on an
`int m[][4]`-style parameter symbol. -/
theorem ptr_param_subscript_lowering_witness :
    1 ≤ 2 ∧
    lvalPtrParamTrace (SymbolInfo.mk "m" .ptr 3 false false false [0, 4]) 2 =
      .loadParamPtr (SymbolInfo.mk "m" .ptr 3 false false false [0, 4]).storage ::
        ((List.range 2).map (fun i =>
           if (SymbolInfo.mk "m" .ptr 3 false false false [0, 4]).arrayDims.length ≤ i + 1
           then LLVMType.i32
           else ptrParamInnerType
             (SymbolInfo.mk "m" .ptr 3 false false false [0, 4]).arrayDims i)).map
          PtrAccess.gepStep ++
        [.loadElem .i32] :=
  ⟨by decide,
   ptr_param_subscript_lowering (SymbolInfo.mk "m" .ptr 3 false false false [0, 4])
     2 (by decide)⟩

theorem localVarInit_symtab (st1 : GenState) (slot : Nat) (varDef : VarDef) :
    (localVarInit st1 slot varDef).symtab = st1.symtab := by
  unfold localVarInit
  repeat' split <;> try simp [pushErrs]

theorem declareOrDiag_dup (st : GenState) (name : String) (info : SymbolInfo)
    (top : Scope) (rest : List Scope) (hsym : st.symtab = top :: rest)
    (hdup : scopeContains top name = true) :
    ("Redeclaration of variable: " ++ name) ∈ (declareOrDiag st name info).errors := by
  simp [declareOrDiag, SymbolTable.declare, hsym, hdup, pushErrs]

/-- The duplicated function definition `void f() {}` used to exhibit the
silent function-redeclaration path. -/
def fDup : FuncDef :=
  { returnType := { kind := .VOID, isConst := false }, name := "f",
    params := [], body := .block .nil }

/-- C7 counterexample: lowering two function definitions with the same
name produces no diagnostic at all, even though after the first one the
name is already present in the current (global) scope — `generateFuncDef`
ignores the result of `symbolTable.declare`. -/
theorem funcdef_redeclaration_silent :
    scopeContains ((generate 9 GenState.initial [.funcU fDup]).symtab.headD []) "f" = true ∧
    (generate 9 GenState.initial [.funcU fDup, .funcU fDup]).errors = [] :=
  ⟨rfl, rfl⟩

/-- C7 (amended): `declare` fails exactly when the name is already present
in the topmost frame (so shadowing an outer scope's name succeeds), and
every such failure during the lowering of a top-level or local *variable*
declaration produces a redeclaration diagnostic; a *function* definition
whose name already exists is lowered with the failed `declare` ignored and
no diagnostic (see the counterexample). -/
theorem declare_and_var_redeclaration
    (top : Scope) (rest : List Scope) (name : String) (info : SymbolInfo)
    (st : GenState) (declTy : TypeSpec) (varDef : VarDef) (ty : LLVMType) :
    ((SymbolTable.declare (top :: rest) name info).1 = true ↔
      scopeContains top name = false) ∧
    (st.symtab = top :: rest → scopeContains top varDef.name = true →
      ("Redeclaration of variable: " ++ varDef.name) ∈
        (generateLocalVar st declTy varDef ty).errors) ∧
    (st.symtab = top :: rest → scopeContains top varDef.name = true →
      ("Redeclaration of variable: " ++ varDef.name) ∈
        (generateGlobalVar st declTy varDef ty).errors) := by
  refine ⟨?_, ?_, ?_⟩
  · by_cases h : scopeContains top name <;> simp [SymbolTable.declare, h]
  · intro hsym hdup
    unfold generateLocalVar
    apply declareOrDiag_dup _ _ _ top rest _ hdup
    rw [localVarInit_symtab]
    simpa using hsym
  · intro hsym hdup
    unfold generateGlobalVar
    apply declareOrDiag_dup _ _ _ top rest _ hdup
    rcases varDef with ⟨vname, vdims, vinit⟩
    cases vinit with
    | none => simpa using hsym
    | some i =>
      cases vdims with
      | nil =>
        rcases hE : generateExpr st i with ⟨v, es⟩
        cases v with
        | none => simpa [hE, pushErrs] using hsym
        | some vv =>
          cases hc : vv.isConstV <;> simpa [hE, hc, pushErrs] using hsym
      | cons h t => simpa using hsym

/-- Witness for C7's amended theorem: a scope whose top frame already
binds `x`, a local and a global redeclaration of `x`, and the `declare`
failure equivalence, all at concrete inputs. -/
theorem declare_and_var_redeclaration_witness :
    ((SymbolTable.declare
        ([("x", SymbolInfo.mk "x" .i32 0 false false false [])] :: []) "x"
        (SymbolInfo.mk "x" .i32 1 false false false [])).1 = true ↔
      scopeContains [("x", SymbolInfo.mk "x" .i32 0 false false false [])] "x" = false) ∧
    ("Redeclaration of variable: " ++ "x") ∈
      (generateLocalVar
        { symtab := [[("x", SymbolInfo.mk "x" .i32 0 false false false [])]],
          loopDepth := 0, term := false, errors := [], emits := [],
          nextSlot := 1, funcs := [] }
        (TypeSpec.mk .INT false) (VarDef.mk "x" .nil none) .i32).errors ∧
    ("Redeclaration of variable: " ++ "x") ∈
      (generateGlobalVar
        { symtab := [[("x", SymbolInfo.mk "x" .i32 0 false false false [])]],
          loopDepth := 0, term := false, errors := [], emits := [],
          nextSlot := 1, funcs := [] }
        (TypeSpec.mk .INT false) (VarDef.mk "x" .nil none) .i32).errors := by
  have T := declare_and_var_redeclaration
    [("x", SymbolInfo.mk "x" .i32 0 false false false [])] []
    "x" (SymbolInfo.mk "x" .i32 1 false false false [])
    { symtab := [[("x", SymbolInfo.mk "x" .i32 0 false false false [])]],
      loopDepth := 0, term := false, errors := [], emits := [],
      nextSlot := 1, funcs := [] }
    (TypeSpec.mk .INT false) (VarDef.mk "x" .nil none) .i32
  exact ⟨T.1, T.2.1 rfl (by decide), T.2.2 rfl (by decide)⟩

/-- C10: a local scalar declared with the empty brace initializer gets its
stack slot allocated but no store, no diagnostic is reported, and the
symbol is registered in the current scope — the init-list branch stores
only when the list has at least one element. -/
theorem local_scalar_empty_brace_init (st : GenState) (declTy : TypeSpec)
    (name : String) (ty : LLVMType) (top : Scope) (rest : List Scope)
    (hsym : st.symtab = top :: rest) (hfresh : scopeContains top name = false) :
    (generateLocalVar st declTy (VarDef.mk name .nil (some (.initList .nil))) ty).emits
      = st.emits ++ [.allocaE st.nextSlot] ∧
    (generateLocalVar st declTy (VarDef.mk name .nil (some (.initList .nil))) ty).errors
      = st.errors ∧
    (generateLocalVar st declTy (VarDef.mk name .nil (some (.initList .nil))) ty).symtab
      = ((name, SymbolInfo.mk name ty st.nextSlot declTy.isConst false false []) :: top)
          :: rest := by
  simp [generateLocalVar, localVarInit, declareOrDiag, SymbolTable.declare, hsym,
    hfresh, extractDimsInfo, ExprList.toList]

/-- Witness for C10 in the initial generator state. -/
theorem local_scalar_empty_brace_init_witness :
    (generateLocalVar GenState.initial (TypeSpec.mk .INT false)
        (VarDef.mk "x" .nil (some (.initList .nil))) .i32).emits
      = GenState.initial.emits ++ [.allocaE GenState.initial.nextSlot] ∧
    (generateLocalVar GenState.initial (TypeSpec.mk .INT false)
        (VarDef.mk "x" .nil (some (.initList .nil))) .i32).errors
      = GenState.initial.errors ∧
    (generateLocalVar GenState.initial (TypeSpec.mk .INT false)
        (VarDef.mk "x" .nil (some (.initList .nil))) .i32).symtab
      = (("x", SymbolInfo.mk "x" .i32 GenState.initial.nextSlot
            (TypeSpec.mk .INT false).isConst false false []) :: []) :: [] :=
  local_scalar_empty_brace_init GenState.initial (TypeSpec.mk .INT false)
    "x" .i32 [] [] rfl rfl

/- ========================================================================= -/
/-  Row-major indexing facts for C3                                         -/
/- ========================================================================= -/

/-- The claim's row-major flat position of a multi-dimensional index:
`Σ iₖ · Πⱼ>ₖ dⱼ`. -/
def rowMajorPos : List Nat → List Nat → Nat
  | d :: ds, i :: is =>
    match d with
    | _ => i * ds.prod + rowMajorPos ds is
  | _, _ => 0

theorem digitLoop_acc (r : List Nat) :
    ∀ k acc, digitLoop r k acc = digitLoop r k [] ++ acc := by
  induction r with
  | nil => intro k acc; simp [digitLoop]
  | cons d rest ih =>
    intro k acc
    simp only [digitLoop]
    rw [ih (k / d) ((k % d) :: acc), ih (k / d) [k % d]]
    simp

theorem digitLoop_length (r : List Nat) :
    ∀ k, (digitLoop r k []).length = r.length := by
  induction r with
  | nil => intro k; simp [digitLoop]
  | cons d rest ih =>
    intro k
    simp only [digitLoop]
    rw [digitLoop_acc]
    simp [ih]

theorem rowMajorPos_snoc (ds : List Nat) :
    ∀ is d i, ds.length = is.length →
      rowMajorPos (ds ++ [d]) (is ++ [i]) = (rowMajorPos ds is) * d + i := by
  induction ds with
  | nil =>
    intro is d i hlen
    have : is = [] := by
      cases is with
      | nil => rfl
      | cons a b => simp at hlen
    subst this
    simp [rowMajorPos]
  | cons d0 ds' ih =>
    intro is d i hlen
    cases is with
    | nil => simp at hlen
    | cons i0 is' =>
      simp only [List.cons_append, rowMajorPos, List.append_eq]
      rw [ih is' d i (by simpa using hlen)]
      simp [List.prod_append]
      ring

theorem digitLoop_rowMajor (r : List Nat) :
    ∀ k, (∀ d ∈ r, 0 < d) → k < r.prod →
      rowMajorPos r.reverse (digitLoop r k []) = k := by
  induction r with
  | nil =>
    intro k _ hk
    simp only [List.prod_nil] at hk
    interval_cases k
    simp [digitLoop, rowMajorPos]
  | cons d rest ih =>
    intro k hpos hk
    have hd : 0 < d := hpos d (by simp)
    have hrest : ∀ x ∈ rest, 0 < x := fun x hx => hpos x (by simp [hx])
    have hsplit : digitLoop (d :: rest) k [] = digitLoop rest (k / d) [] ++ [k % d] := by
      simp only [digitLoop]
      rw [digitLoop_acc]
    rw [hsplit, List.reverse_cons,
      rowMajorPos_snoc rest.reverse (digitLoop rest (k / d) []) d (k % d)
        (by simp [digitLoop_length])]
    have hklt : k / d < rest.prod := by
      rw [Nat.div_lt_iff_lt_mul hd]
      calc k < (d :: rest).prod := hk
        _ = rest.prod * d := by simp [List.prod_cons]; ring
    rw [ih (k / d) hrest hklt]
    have h1 := Nat.div_add_mod k d
    have h2 : (k / d) * d = d * (k / d) := Nat.mul_comm _ _
    omega

theorem buildIndices_rowMajor (dims : List Nat) (k : Nat)
    (hpos : ∀ d ∈ dims, 0 < d) (hk : k < dims.prod) :
    ∃ idx, buildIndices dims k = 0 :: idx ∧ rowMajorPos dims idx = k := by
  refine ⟨digitLoop dims.reverse k [], rfl, ?_⟩
  have h1 : ∀ d ∈ dims.reverse, 0 < d := by
    intro d hd
    exact hpos d (by simpa using hd)
  have h2 : k < dims.reverse.prod := by simpa [List.prod_reverse] using hk
  have := digitLoop_rowMajor dims.reverse k h1 h2
  simpa using this

theorem initStores_length (slot : Nat) (dims : List Nat) (total : Nat) :
    ∀ (vs : List Val) (k : Nat),
      (initStores slot dims total vs k).length = min vs.length (total - k) := by
  intro vs
  induction vs with
  | nil => intro k; simp [initStores]
  | cons v rest ih =>
    intro k
    by_cases h : k < total
    · simp only [initStores, if_pos h, List.length_cons, ih (k + 1)]
      omega
    · simp only [initStores, if_neg h, List.length_nil, List.length_cons]
      omega

theorem initStores_get (slot : Nat) (dims : List Nat) (total : Nat) :
    ∀ (vs : List Val) (j k : Nat) (v : Val), vs.get? j = some v → k + j < total →
      (initStores slot dims total vs k).get? j =
        some (.storeGep slot (buildIndices dims (k + j)) v) := by
  intro vs
  induction vs with
  | nil => intro j k v hj; simp at hj
  | cons v0 rest ih =>
    intro j k v hj hlt
    have hk : k < total := by omega
    cases j with
    | zero =>
      simp only [List.get?] at hj
      simp only [initStores, if_pos hk, List.get?]
      simp_all
    | succ j' =>
      simp only [List.get?] at hj
      simp only [initStores, if_pos hk, List.get?]
      have := ih j' (k + 1) v hj (by omega)
      simpa [Nat.add_comm, Nat.add_assoc, Nat.add_left_comm] using this

/-- C3: lowering a local array initializer flattens the brace list
depth-first and stores the `j`-th flattened value at the constant index
vector whose row-major flat position (`Σ iₖ · Πⱼ>ₖ dⱼ`, the claim's
formula) is `j`; initializers beyond the array's total size are discarded
and absent initializers produce no store (the store count is
`min (#flattened) (Π dims)`), and a single scalar initializer expression
is stored at every flat position of the array. -/
theorem initializeArray_rowmajor (st : GenState) (slot : Nat) (items : ExprList)
    (dims : List Int) (hpos : ∀ d ∈ dims, 0 < d) :
    (initializeArray st slot (.initList items) dims).1.length =
      min (flattenInitList st items).1.length ((dims.map Int.toNat).prod) ∧
    (∀ j v, (flattenInitList st items).1.get? j = some v →
      j < (dims.map Int.toNat).prod →
      (initializeArray st slot (.initList items) dims).1.get? j =
        some (.storeGep slot (buildIndices (dims.map Int.toNat) j) v)) ∧
    (∀ k, k < (dims.map Int.toNat).prod →
      ∃ idx, buildIndices (dims.map Int.toNat) k = 0 :: idx ∧
        rowMajorPos (dims.map Int.toNat) idx = k) ∧
    (∀ e v es, (∀ its, e ≠ .initList its) → generateExpr st e = (some v, es) →
      (initializeArray st slot e dims).1.length = (dims.map Int.toNat).prod ∧
      ∀ k, k < (dims.map Int.toNat).prod →
        (initializeArray st slot e dims).1.get? k =
          some (.storeGep slot (buildIndices (dims.map Int.toNat) k) v)) := by
  have hposN : ∀ d ∈ dims.map Int.toNat, 0 < d := by
    intro d hd
    rcases List.mem_map.mp hd with ⟨z, hz, rfl⟩
    have := hpos z hz
    omega
  rcases hF : flattenInitList st items with ⟨flat, esF⟩
  refine ⟨?_, ?_, ?_, ?_⟩
  · simp [initializeArray, hF, initStores_length]
  · intro j v hj hjlt
    simp only [initializeArray, hF]
    have := initStores_get slot (dims.map Int.toNat) ((dims.map Int.toNat).prod)
      flat j 0 v (by simpa using hj) (by omega)
    simpa using this
  · intro k hk
    exact buildIndices_rowMajor (dims.map Int.toNat) k hposN hk
  · intro e v es hne hE
    cases e with
    | initList its => exact absurd rfl (hne its)
    | number n =>
      constructor
      · simp [initializeArray, hE, broadcastStores]
      · intro k hk
        simp [initializeArray, hE, broadcastStores, List.getElem?_map]
        exact ⟨k, by simp [List.getElem?_range hk], rfl⟩
    | charE c =>
      constructor
      · simp [initializeArray, hE, broadcastStores]
      · intro k hk
        simp [initializeArray, hE, broadcastStores, List.getElem?_map]
        exact ⟨k, by simp [List.getElem?_range hk], rfl⟩
    | stringE sv =>
      constructor
      · simp [initializeArray, hE, broadcastStores]
      · intro k hk
        simp [initializeArray, hE, broadcastStores, List.getElem?_map]
        exact ⟨k, by simp [List.getElem?_range hk], rfl⟩
    | lval n ix =>
      constructor
      · simp [initializeArray, hE, broadcastStores]
      · intro k hk
        simp [initializeArray, hE, broadcastStores, List.getElem?_map]
        exact ⟨k, by simp [List.getElem?_range hk], rfl⟩
    | binary l op r =>
      constructor
      · simp [initializeArray, hE, broadcastStores]
      · intro k hk
        simp [initializeArray, hE, broadcastStores, List.getElem?_map]
        exact ⟨k, by simp [List.getElem?_range hk], rfl⟩
    | unary op r =>
      constructor
      · simp [initializeArray, hE, broadcastStores]
      · intro k hk
        simp [initializeArray, hE, broadcastStores, List.getElem?_map]
        exact ⟨k, by simp [List.getElem?_range hk], rfl⟩
    | ternary c t f =>
      constructor
      · simp [initializeArray, hE, broadcastStores]
      · intro k hk
        simp [initializeArray, hE, broadcastStores, List.getElem?_map]
        exact ⟨k, by simp [List.getElem?_range hk], rfl⟩
    | funcCall n args =>
      constructor
      · simp [initializeArray, hE, broadcastStores]
      · intro k hk
        simp [initializeArray, hE, broadcastStores, List.getElem?_map]
        exact ⟨k, by simp [List.getElem?_range hk], rfl⟩
    | nullE =>
      constructor
      · simp [initializeArray, hE, broadcastStores]
      · intro k hk
        simp [initializeArray, hE, broadcastStores, List.getElem?_map]
        exact ⟨k, by simp [List.getElem?_range hk], rfl⟩

/-- Witness for C3 at `int a[2][3] = {7, 8, 9, 10};` in the initial
state: the positivity hypotheses hold at the concrete dimensions, the
store count and the store at flat position 1 are produced, and flat
position 4 decomposes to the row-major index `[1, 1]`. -/
theorem initializeArray_rowmajor_witness :
    (∀ d ∈ ([2, 3] : List Int), 0 < d) ∧
    (initializeArray GenState.initial 0
        (.initList (.cons (.number 7) (.cons (.number 8)
          (.cons (.number 9) (.cons (.number 10) .nil))))) [2, 3]).1.length =
      min (flattenInitList GenState.initial
        (.cons (.number 7) (.cons (.number 8)
          (.cons (.number 9) (.cons (.number 10) .nil))))).1.length
        (([2, 3] : List Int).map Int.toNat).prod ∧
    (∃ idx, buildIndices (([2, 3] : List Int).map Int.toNat) 4 = 0 :: idx ∧
      rowMajorPos (([2, 3] : List Int).map Int.toNat) idx = 4) := by
  have hpos : ∀ d ∈ ([2, 3] : List Int), 0 < d := by decide
  have T := initializeArray_rowmajor GenState.initial 0
    (.cons (.number 7) (.cons (.number 8)
      (.cons (.number 9) (.cons (.number 10) .nil)))) [2, 3] hpos
  exact ⟨hpos, T.1, T.2.2.1 4 (by decide)⟩

/- ========================================================================= -/
/-  Preservation lemmas for the balance claims                              -/
/- ========================================================================= -/

theorem declare_length (st : SymbolTable) (n : String) (i : SymbolInfo) :
    ((SymbolTable.declare st n i).2).length = st.length := by
  cases st with
  | nil => rfl
  | cons top rest =>
    by_cases h : scopeContains top n <;> simp [SymbolTable.declare, h]

theorem declareOrDiag_preserve (st : GenState) (n : String) (i : SymbolInfo) :
    (declareOrDiag st n i).symtab.length = st.symtab.length ∧
    (declareOrDiag st n i).loopDepth = st.loopDepth := by
  have hlen := declare_length st.symtab n i
  rcases hd : st.symtab.declare n i with ⟨ok, sym'⟩
  rw [hd] at hlen
  simp only [declareOrDiag, hd]
  split <;> simp [pushErrs, hlen]

theorem localVarInit_preserve (st1 : GenState) (slot : Nat) (varDef : VarDef) :
    (localVarInit st1 slot varDef).symtab.length = st1.symtab.length ∧
    (localVarInit st1 slot varDef).loopDepth = st1.loopDepth := by
  unfold localVarInit
  repeat' split <;> try simp [pushErrs]

theorem generateLocalVar_preserve (st : GenState) (t : TypeSpec) (vd : VarDef)
    (ty : LLVMType) :
    (generateLocalVar st t vd ty).symtab.length = st.symtab.length ∧
    (generateLocalVar st t vd ty).loopDepth = st.loopDepth := by
  unfold generateLocalVar
  constructor
  · rw [(declareOrDiag_preserve _ _ _).1, (localVarInit_preserve _ _ _).1]
  · rw [(declareOrDiag_preserve _ _ _).2, (localVarInit_preserve _ _ _).2]

theorem generateGlobalVar_preserve (st : GenState) (t : TypeSpec) (vd : VarDef)
    (ty : LLVMType) :
    (generateGlobalVar st t vd ty).symtab.length = st.symtab.length ∧
    (generateGlobalVar st t vd ty).loopDepth = st.loopDepth := by
  rcases vd with ⟨vname, vdims, vinit⟩
  cases vinit with
  | none =>
    simp only [generateGlobalVar]
    exact ⟨by rw [(declareOrDiag_preserve _ _ _).1],
           by rw [(declareOrDiag_preserve _ _ _).2]⟩
  | some i =>
    cases vdims with
    | cons hd tl =>
      simp only [generateGlobalVar]
      exact ⟨by rw [(declareOrDiag_preserve _ _ _).1],
             by rw [(declareOrDiag_preserve _ _ _).2]⟩
    | nil =>
      rcases hE : generateExpr st i with ⟨v, es⟩
      cases v with
      | none =>
        simp only [generateGlobalVar, hE]
        refine ⟨?_, ?_⟩
        · rw [(declareOrDiag_preserve _ _ _).1]; simp [pushErrs]
        · rw [(declareOrDiag_preserve _ _ _).2]; simp [pushErrs]
      | some vv =>
        cases hc : vv.isConstV with
        | false =>
          simp only [generateGlobalVar, hE, hc]
          refine ⟨?_, ?_⟩
          · rw [(declareOrDiag_preserve _ _ _).1]; simp [pushErrs]
          · rw [(declareOrDiag_preserve _ _ _).2]; simp [pushErrs]
        | true =>
          simp only [generateGlobalVar, hE, hc]
          refine ⟨?_, ?_⟩
          · rw [(declareOrDiag_preserve _ _ _).1]; simp [pushErrs]
          · rw [(declareOrDiag_preserve _ _ _).2]; simp [pushErrs]

theorem generateVarDeclItem_preserve (t : TypeSpec) (bt : LLVMType) (g : Bool)
    (acc : GenState) (vd : VarDef) :
    (generateVarDeclItem t bt g acc vd).symtab.length = acc.symtab.length ∧
    (generateVarDeclItem t bt g acc vd).loopDepth = acc.loopDepth := by
  unfold generateVarDeclItem
  repeat' split <;>
    simp [generateGlobalVar_preserve, generateLocalVar_preserve,
      (generateGlobalVar_preserve _ _ _ _).1, (generateGlobalVar_preserve _ _ _ _).2,
      (generateLocalVar_preserve _ _ _ _).1, (generateLocalVar_preserve _ _ _ _).2,
      pushErrs]

theorem varDeclFold_preserve (t : TypeSpec) (bt : LLVMType) (g : Bool)
    (vars : List VarDef) :
    ∀ acc : GenState,
      ((vars.foldl (generateVarDeclItem t bt g) acc).symtab.length =
        acc.symtab.length) ∧
      ((vars.foldl (generateVarDeclItem t bt g) acc).loopDepth = acc.loopDepth) := by
  induction vars with
  | nil => intro acc; simp
  | cons vd rest ih =>
    intro acc
    have h1 := generateVarDeclItem_preserve t bt g acc vd
    have h2 := ih (generateVarDeclItem t bt g acc vd)
    simp only [List.foldl_cons]
    exact ⟨h2.1.trans h1.1, h2.2.trans h1.2⟩

theorem generateVarDecl_preserve (st : GenState) (d : VarDecl) :
    (generateVarDecl st d).symtab.length = st.symtab.length ∧
    (generateVarDecl st d).loopDepth = st.loopDepth := by
  unfold generateVarDecl
  exact varDeclFold_preserve d.type (getLLVMType d.type) (st.symtab.length == 1)
    d.vars st

theorem generateDecl_preserve (st : GenState) (d : VarDecl) :
    (generateDecl st d).symtab.length = st.symtab.length ∧
    (generateDecl st d).loopDepth = st.loopDepth :=
  generateVarDecl_preserve st d

theorem pushErrs_symtab (st : GenState) (es : List String) :
    (pushErrs st es).symtab = st.symtab := rfl

theorem pushErrs_loopDepth (st : GenState) (es : List String) :
    (pushErrs st es).loopDepth = st.loopDepth := rfl


/-- The control-flow tail of the `for` lowering (semantic.cpp lines
976-1039), starting from the state reached after the `for` scope has been
entered and the init clause lowered: push the loop context, lower the
condition — on failure pop the context, exit the scope and return — then
lower body and step, and pop/exit on the normal path.  The `forS` branch
of `generateStmt` unfolds definitionally to this function (see
`generateStmt_forS_unfold`). -/
def generateForBody (fuel : Nat) (st1 : GenState) (cond : Option Expr)
    (step : OStmt) (body : Stmt) : GenState :=
  let stP := { st1 with loopDepth := st1.loopDepth + 1 }
  let stC := { stP with term := false }
  match cond with
  | some c =>
    let (v, esV) := generateExpr stC c
    let st2 := pushErrs stC esV
    match v with
    | none =>
      { st2 with loopDepth := st2.loopDepth - 1, symtab := st2.symtab.exitScope }
    | some vv =>
      let (b, esB) := convertToBool vv
      let st3 := pushErrs st2 esB
      match b with
      | none =>
        { st3 with loopDepth := st3.loopDepth - 1, symtab := st3.symtab.exitScope }
      | some _ =>
        let st4 := generateStmt fuel { st3 with term := false } body
        let st5 := { st4 with term := false }
        let st6 :=
          match step with
          | .noneS => st5
          | .someS sp => generateStmt fuel st5 sp
        let st7 := { st6 with term := false }
        { st7 with loopDepth := st7.loopDepth - 1, symtab := st7.symtab.exitScope }
  | none =>
    let st4 := generateStmt fuel { stC with term := false } body
    let st5 := { st4 with term := false }
    let st6 :=
      match step with
      | .noneS => st5
      | .someS sp => generateStmt fuel st5 sp
    let st7 := { st6 with term := false }
    { st7 with loopDepth := st7.loopDepth - 1, symtab := st7.symtab.exitScope }

theorem generateStmt_forS_unfold (fuel : Nat) (st : GenState) (init : OItem)
    (cond : Option Expr) (step : OStmt) (body : Stmt) :
    generateStmt (fuel + 1) st (.forS init cond step body) =
      generateForBody fuel
        (match init with
         | .noneI => { st with symtab := st.symtab.enterScope }
         | .someI it =>
           generateItem fuel { st with symtab := st.symtab.enterScope } it)
        cond step body := by
  cases init <;> rfl

theorem gen_balance (fuel : Nat) :
    (∀ (st : GenState) (s : Stmt), 1 ≤ st.symtab.length →
      (generateStmt fuel st s).loopDepth = st.loopDepth ∧
      (generateStmt fuel st s).symtab.length = st.symtab.length) ∧
    (∀ (st : GenState) (l : StmtItems), 1 ≤ st.symtab.length →
      (generateItems fuel st l).loopDepth = st.loopDepth ∧
      (generateItems fuel st l).symtab.length = st.symtab.length) ∧
    (∀ (st : GenState) (it : BlockItem), 1 ≤ st.symtab.length →
      (generateItem fuel st it).loopDepth = st.loopDepth ∧
      (generateItem fuel st it).symtab.length = st.symtab.length) := by
  induction fuel with
  | zero =>
    exact ⟨fun st s _ => ⟨rfl, rfl⟩, fun st l _ => ⟨rfl, rfl⟩,
           fun st it _ => ⟨rfl, rfl⟩⟩
  | succ n ih =>
    obtain ⟨ihS, ihL, ihI⟩ := ih
    refine ⟨?_, ?_, ?_⟩
    · intro st s h
      cases s with
      | exprStmt e =>
        cases e with
        | none => exact ⟨rfl, rfl⟩
        | some ex =>
          rcases hE : generateExpr st ex with ⟨v, es⟩
          simp [generateStmt, hE, pushErrs]
      | assign nm ix rhs =>
        simp only [generateStmt]
        repeat' split <;> try simp [pushErrs]
      | block items =>
        have IH := ihL { st with symtab := st.symtab.enterScope } items
          (by simp [SymbolTable.enterScope])
        have h2 : (generateItems n { st with symtab := st.symtab.enterScope }
            items).symtab.length = st.symtab.length + 1 := by
          rw [IH.2]; simp [SymbolTable.enterScope]
        simp only [generateStmt]
        refine ⟨IH.1, ?_⟩
        simp only [SymbolTable.exitScope]
        split
        · simp only [List.length_tail]; omega
        · omega
      | ifS c thenS elseS =>
        rcases hE : generateExpr st c with ⟨cv, esC⟩
        cases cv with
        | none => simp [generateStmt, hE, pushErrs]
        | some cvv =>
          rcases hB : convertToBool cvv with ⟨b, esB⟩
          cases b with
          | none => simp [generateStmt, hE, hB, pushErrs]
          | some bv =>
            have IHt := ihS { pushErrs (pushErrs st esC) esB with term := false }
              thenS (by simpa [pushErrs] using h)
            cases elseS with
            | noneS =>
              simp only [generateStmt, hE, hB]
              exact ⟨IHt.1, IHt.2⟩
            | someS e =>
              have IHe := ihS
                { generateStmt n { pushErrs (pushErrs st esC) esB with term := false }
                    thenS with term := false } e
                (by
                  have h2 := IHt.2
                  simp only [pushErrs] at h2
                  simp only [pushErrs]
                  omega)
              simp only [generateStmt, hE, hB]
              exact ⟨IHe.1.trans IHt.1, IHe.2.trans IHt.2⟩
      | whileS c body =>
        rcases hE : generateExpr
            { { st with loopDepth := st.loopDepth + 1 } with term := false } c
          with ⟨cv, esC⟩
        cases cv with
        | none => simp [generateStmt, hE, pushErrs]
        | some cvv =>
          rcases hB : convertToBool cvv with ⟨b, esB⟩
          cases b with
          | none => simp [generateStmt, hE, hB, pushErrs]
          | some bv =>
            have IHb := ihS
              { pushErrs (pushErrs
                  { { st with loopDepth := st.loopDepth + 1 } with term := false }
                  esC) esB with term := false } body
              (by simpa [pushErrs] using h)
            simp only [generateStmt, hE, hB]
            refine ⟨?_, ?_⟩
            · have h1 := IHb.1
              try simp [pushErrs] at h1
              simp [pushErrs]
              omega
            · have h1 := IHb.2
              try simp [pushErrs] at h1
              simp [pushErrs]
              omega
      | ret v =>
        cases v with
        | none => exact ⟨rfl, rfl⟩
        | some e =>
          rcases hE : generateExpr st e with ⟨r, es⟩
          cases r <;> simp [generateStmt, hE, pushErrs]
      | brk =>
        simp only [generateStmt]
        split <;> simp [pushErrs]
      | cont =>
        simp only [generateStmt]
        split <;> simp [pushErrs]
      | forS init cond step body =>
        rw [generateStmt_forS_unfold]
        have tail : ∀ Z : GenState, Z.loopDepth = st.loopDepth →
            Z.symtab.length = st.symtab.length + 1 →
            (generateForBody n Z cond step body).loopDepth = st.loopDepth ∧
            (generateForBody n Z cond step body).symtab.length = st.symtab.length := by
          intro Z hZd hZl
          unfold generateForBody
          set SC : GenState :=
            { { Z with loopDepth := Z.loopDepth + 1 } with term := false } with hSC
          have hSCd : SC.loopDepth = st.loopDepth + 1 := by rw [hSC]; simp [hZd]
          have hSCl : SC.symtab.length = st.symtab.length + 1 := by rw [hSC]; simp [hZl]
          cases cond with
          | some c =>
            rcases hE : generateExpr SC c with ⟨v, esV⟩
            simp only [hE]
            cases v with
            | none =>
              refine ⟨?_, ?_⟩
              · show (pushErrs SC esV).loopDepth - 1 = st.loopDepth
                simp only [pushErrs]
                omega
              · show ((pushErrs SC esV).symtab.exitScope).length = st.symtab.length
                simp only [pushErrs, SymbolTable.exitScope]
                split
                · simp only [List.length_tail]; omega
                · omega
            | some vv =>
              rcases hB : convertToBool vv with ⟨b, esB⟩
              simp only [hB]
              cases b with
              | none =>
                refine ⟨?_, ?_⟩
                · show (pushErrs (pushErrs SC esV) esB).loopDepth - 1 = st.loopDepth
                  simp only [pushErrs]
                  omega
                · show ((pushErrs (pushErrs SC esV) esB).symtab.exitScope).length
                    = st.symtab.length
                  simp only [pushErrs, SymbolTable.exitScope]
                  split
                  · simp only [List.length_tail]; omega
                  · omega
              | some bv =>
                have IHb := ihS
                  { pushErrs (pushErrs SC esV) esB with term := false } body
                  (by simp [pushErrs]; omega)
                have hBd : (generateStmt n
                    { pushErrs (pushErrs SC esV) esB with term := false } body).loopDepth
                    = SC.loopDepth := IHb.1
                have hBl : (generateStmt n
                    { pushErrs (pushErrs SC esV) esB with term := false } body).symtab.length
                    = SC.symtab.length := IHb.2
                set B : GenState := generateStmt n
                  { pushErrs (pushErrs SC esV) esB with term := false } body with hBdef
                cases step with
                | noneS =>
                  refine ⟨?_, ?_⟩
                  · show B.loopDepth - 1 = st.loopDepth
                    omega
                  · show (B.symtab.exitScope).length = st.symtab.length
                    simp only [SymbolTable.exitScope]
                    split
                    · simp only [List.length_tail]; omega
                    · omega
                | someS sp =>
                  have IHs := ihS { B with term := false } sp (by simp; omega)
                  have hCd : (generateStmt n { B with term := false } sp).loopDepth
                      = B.loopDepth := IHs.1
                  have hCl : (generateStmt n { B with term := false } sp).symtab.length
                      = B.symtab.length := IHs.2
                  set C : GenState := generateStmt n { B with term := false } sp with hCdef
                  refine ⟨?_, ?_⟩
                  · show C.loopDepth - 1 = st.loopDepth
                    omega
                  · show (C.symtab.exitScope).length = st.symtab.length
                    simp only [SymbolTable.exitScope]
                    split
                    · simp only [List.length_tail]; omega
                    · omega
          | none =>
            have IHb := ihS { SC with term := false } body (by simp; omega)
            have hBd : (generateStmt n { SC with term := false } body).loopDepth
                = SC.loopDepth := IHb.1
            have hBl : (generateStmt n { SC with term := false } body).symtab.length
                = SC.symtab.length := IHb.2
            set B : GenState := generateStmt n { SC with term := false } body with hBdef
            cases step with
            | noneS =>
              refine ⟨?_, ?_⟩
              · show B.loopDepth - 1 = st.loopDepth
                omega
              · show (B.symtab.exitScope).length = st.symtab.length
                simp only [SymbolTable.exitScope]
                split
                · simp only [List.length_tail]; omega
                · omega
            | someS sp =>
              have IHs := ihS { B with term := false } sp (by simp; omega)
              have hCd : (generateStmt n { B with term := false } sp).loopDepth
                  = B.loopDepth := IHs.1
              have hCl : (generateStmt n { B with term := false } sp).symtab.length
                  = B.symtab.length := IHs.2
              set C : GenState := generateStmt n { B with term := false } sp with hCdef
              refine ⟨?_, ?_⟩
              · show C.loopDepth - 1 = st.loopDepth
                omega
              · show (C.symtab.exitScope).length = st.symtab.length
                simp only [SymbolTable.exitScope]
                split
                · simp only [List.length_tail]; omega
                · omega
        have hS0l : ({ st with symtab := st.symtab.enterScope } : GenState).symtab.length
            = st.symtab.length + 1 := by simp [SymbolTable.enterScope]
        cases init with
        | noneI => exact tail { st with symtab := st.symtab.enterScope } rfl hS0l
        | someI it =>
          have IH := ihI { st with symtab := st.symtab.enterScope } it (by omega)
          exact tail (generateItem n { st with symtab := st.symtab.enterScope } it)
            (IH.1.trans rfl) (IH.2.trans hS0l)
    · intro st l h
      cases l with
      | nil => cases n <;> exact ⟨rfl, rfl⟩
      | cons it rest =>
        by_cases ht : st.term
        · simp [generateItems, ht]
        · have IH1 := ihI st it h
          have IH2 := ihL (generateItem n st it) rest (by omega)
          simp only [generateItems, if_neg ht]
          exact ⟨IH2.1.trans IH1.1, IH2.2.trans IH1.2⟩
    · intro st it h
      cases it with
      | declItem d =>
        simp only [generateItem]
        exact ⟨(generateDecl_preserve st d).2, (generateDecl_preserve st d).1⟩
      | stmtItem s =>
        simp only [generateItem]
        exact ihS st s h

theorem generateFuncParams_preserve (ps : List FuncParam) :
    ∀ st : GenState, (generateFuncParams st ps).symtab.length = st.symtab.length ∧
      (generateFuncParams st ps).loopDepth = st.loopDepth := by
  induction ps with
  | nil => intro st; exact ⟨rfl, rfl⟩
  | cons p rest ih =>
    intro st
    simp only [generateFuncParams]
    constructor
    · rw [(ih _).1]
      simp [declare_length]
    · exact (ih _).2

theorem funcBody_scope (fuel : Nat) (A : GenState) (ps : List FuncParam)
    (body : Stmt) (rv : Bool) (hA : 1 ≤ A.symtab.length) :
    ((if rv && !(generateStmt fuel
          (generateFuncParams { A with symtab := A.symtab.enterScope } ps) body).term
      then { generateStmt fuel
              (generateFuncParams { A with symtab := A.symtab.enterScope } ps) body
              with term := true }
      else generateStmt fuel
        (generateFuncParams { A with symtab := A.symtab.enterScope } ps)
        body).symtab.exitScope).length = A.symtab.length := by
  have hp : (generateFuncParams { A with symtab := A.symtab.enterScope }
      ps).symtab.length = A.symtab.length + 1 := by
    rw [(generateFuncParams_preserve ps _).1]
    simp [SymbolTable.enterScope]
  have hb : (generateStmt fuel
      (generateFuncParams { A with symtab := A.symtab.enterScope } ps)
      body).symtab.length = A.symtab.length + 1 := by
    rw [((gen_balance fuel).1 _ body (by omega)).2]
    exact hp
  have hif : (if rv && !(generateStmt fuel
        (generateFuncParams { A with symtab := A.symtab.enterScope } ps) body).term
      then { generateStmt fuel
              (generateFuncParams { A with symtab := A.symtab.enterScope } ps) body
              with term := true }
      else generateStmt fuel
        (generateFuncParams { A with symtab := A.symtab.enterScope } ps)
        body).symtab = (generateStmt fuel
          (generateFuncParams { A with symtab := A.symtab.enterScope } ps)
          body).symtab := by
    split <;> rfl
  rw [hif]
  simp only [SymbolTable.exitScope]
  split
  · simp only [List.length_tail]; omega
  · omega

theorem generateFuncDef_scope (fuel : Nat) (st : GenState) (f : FuncDef)
    (h : 1 ≤ st.symtab.length) :
    (generateFuncDef fuel st f).symtab.length = st.symtab.length := by
  unfold generateFuncDef
  dsimp only
  rcases hdecl : st.symtab.declare f.name
      (SymbolInfo.mk f.name
        (LLVMType.funcTy (List.map paramLLVMType f.params)
          (getLLVMType f.returnType)) st.nextSlot false true true [])
    with ⟨ok, sym1⟩
  have h1 := congrArg (fun pr : Bool × SymbolTable => pr.2.length) hdecl
  simp only [declare_length] at h1
  have h2 := funcBody_scope fuel
    { st with
      nextSlot := st.nextSlot + 1,
      funcs := st.funcs ++ [FuncSig.mk f.name f.params.length
        (getLLVMType f.returnType)],
      symtab := sym1, term := false }
    f.params f.body (getLLVMType f.returnType).isVoidTy
    (by simp only [GenState.symtab] at *; omega)
  exact h2.trans (by simpa using h1.symm)

/-- C4: lowering a `While` or `For` statement leaves the loop-context
stack at exactly the size it had before — every push at loop entry is
matched by a pop on each exit path, including the early returns taken
when condition lowering fails — and lowering a `Block`, `For` or function
definition leaves the symbol table's scope depth unchanged (the generator
always runs with at least the global scope present). -/
theorem loop_scope_balance (fuel : Nat) (st : GenState) (c : Expr) (b : Stmt)
    (i : OItem) (oc : Option Expr) (sp : OStmt) (items : StmtItems)
    (f : FuncDef) (h : 1 ≤ st.symtab.length) :
    (generateStmt fuel st (.whileS c b)).loopDepth = st.loopDepth ∧
    (generateStmt fuel st (.forS i oc sp b)).loopDepth = st.loopDepth ∧
    (generateStmt fuel st (.block items)).symtab.length = st.symtab.length ∧
    (generateStmt fuel st (.forS i oc sp b)).symtab.length = st.symtab.length ∧
    (generateFuncDef fuel st f).symtab.length = st.symtab.length :=
  ⟨((gen_balance fuel).1 st (.whileS c b) h).1,
   ((gen_balance fuel).1 st (.forS i oc sp b) h).1,
   ((gen_balance fuel).1 st (.block items) h).2,
   ((gen_balance fuel).1 st (.forS i oc sp b) h).2,
   generateFuncDef_scope fuel st f h⟩

/-- Witness for C4 at a concrete state and concrete loops (a `while` whose
condition mentions an undeclared variable exercises the early-exit path). -/
theorem loop_scope_balance_witness :
    (generateStmt 3 GenState.initial
      (.whileS (.lval "nope" .nil) (.ret none))).loopDepth =
        GenState.initial.loopDepth ∧
    (generateStmt 3 GenState.initial
      (.forS .noneI (some (.number 1)) .noneS (.ret none))).loopDepth =
        GenState.initial.loopDepth ∧
    (generateStmt 3 GenState.initial (.block .nil)).symtab.length =
        GenState.initial.symtab.length ∧
    (generateStmt 3 GenState.initial
      (.forS .noneI (some (.number 1)) .noneS (.ret none))).symtab.length =
        GenState.initial.symtab.length ∧
    (generateFuncDef 3 GenState.initial
      (FuncDef.mk (TypeSpec.mk .VOID false) "g" [] (.block .nil))).symtab.length =
        GenState.initial.symtab.length :=
  loop_scope_balance 3 GenState.initial (.lval "nope" .nil) (.ret none)
    .noneI (some (.number 1)) .noneS .nil
    (FuncDef.mk (TypeSpec.mk .VOID false) "g" [] (.block .nil)) (by decide)
